import Mathlib

/-!
A shallow embedding of the arrow2 core kernels

This file embeds, in Lean 4, the parts of the `arrow2` columnar-array library
covered by its specification:

* the validity-aware `take` (gather) kernels for primitive and boolean arrays
  (`src/compute/take/primitive.rs`, `src/compute/take/boolean.rs`),
* the `Simd8` 8-lane comparison abstraction
  (`src/compute/comparison/simd/packed.rs`),
* the growable fixed-size-binary builder
  (`src/array/fixed_size_binary/mutable.rs`),

together with theorems settling the specification's claims about them.

Modelling conventions:
* `Buffer<T>` and slices become `List T`; `Bitmap`/`MutableBitmap` become
  `List Bool` (bit `k` of the bitmap is element `k` of the list).
* Machine integers used as indices become `Int` (signedness matters for the
  index-to-offset conversion); byte values become `Nat`.
* Fallible Rust functions returning `Result<A, ArrowError>` become
  `Except ArrowError A`; the `?` operator becomes monadic bind, which is
  fail-fast exactly like the Rust `try_from_trusted_len_iter` construction.
* Rust methods that mutate `&mut self` and return `Result<()>` become pure
  functions returning the new state paired with the `Result`; an early
  `return Err(..)` before any field is written returns the original state.
-/

namespace Arrow2

/-- The two error kinds of this core, from `error.rs` (declared outside
`src/`; the spec's §7 lists exactly these two as sufficient). -/
inductive ArrowError where
  | KeyOverflowError : ArrowError
  | InvalidArgumentError : String → ArrowError
  deriving DecidableEq, Repr

/-- Logical type tag carried by arrays. Only the constructors the embedded
code touches are needed. -/
inductive DataType where
  | Int32 : DataType
  | Boolean : DataType
  | FixedSizeBinary : Int → DataType
  deriving DecidableEq, Repr

/-- Modelled from the spec: the "Index value" capability — conversion of an
index to a memory offset "fails (`KeyOverflowError`) if the value is negative
or does not fit the platform offset width". The platform width is unbounded
here, so the conversion fails exactly on negative values. This is
`maybe_usize` in `src/compute/take/mod.rs`, which is outside `src/`. -/
def maybe_usize (i : Int) : Except ArrowError Nat :=
  if 0 ≤ i then .ok i.toNat else .error .KeyOverflowError

/-- A primitive array: a values buffer and an optional validity bitmap
(`None` means all-valid). The `data_type` field is carried as in
`PrimitiveArray<T>`. -/
structure PrimitiveArray (α : Type) where
  data_type : DataType
  values : List α
  validity : Option (List Bool)
  deriving DecidableEq, Repr

/-- A boolean array: bit-packed values (modelled as `List Bool`) plus an
optional validity bitmap. -/
structure BooleanArray where
  values : List Bool
  validity : Option (List Bool)
  deriving DecidableEq, Repr

namespace PrimitiveArray

/-- `Array::len`: the logical length. -/
def len (a : PrimitiveArray α) : Nat := a.values.length

/-- `Array::null_count`: the number of unset validity bits (`0` when the
validity is absent). -/
def null_count (a : PrimitiveArray α) : Nat :=
  match a.validity with
  | none => 0
  | some v => v.count false

/-- `PrimitiveArray::iter`: yields `some`/`none` per slot by zipping values
with the validity bitmap; with no bitmap every slot is `some`. -/
def iter (a : PrimitiveArray α) : List (Option α) :=
  match a.validity with
  | none => a.values.map some
  | some v => (a.values.zip v).map (fun p => if p.2 then some p.1 else none)

/-- Whether logical slot `k` is null. Out-of-range `k` reads as not null,
matching a bitmap probe that only happens in range. -/
def isNullAt (a : PrimitiveArray α) (k : Nat) : Bool :=
  match a.validity with
  | none => false
  | some v => !(v.getD k true)

/-- The stored value at slot `k` (meaningless when the slot is null). -/
def valueAt [Inhabited α] (a : PrimitiveArray α) (k : Nat) : α :=
  a.values.getD k default

/-- Well-formedness from the spec's data model: a present validity bitmap has
one bit per logical element. -/
def WF (a : PrimitiveArray α) : Prop :=
  ∀ v, a.validity = some v → v.length = a.values.length

/-- `PrimitiveArray::from_data`. -/
def from_data (data_type : DataType) (values : List α)
    (validity : Option (List Bool)) : PrimitiveArray α :=
  ⟨data_type, values, validity⟩

end PrimitiveArray

namespace BooleanArray

/-- `Array::len` for boolean arrays. -/
def len (a : BooleanArray) : Nat := a.values.length

/-- `Array::null_count` for boolean arrays. -/
def null_count (a : BooleanArray) : Nat :=
  match a.validity with
  | none => 0
  | some v => v.count false

/-- Whether logical slot `k` is null. -/
def isNullAt (a : BooleanArray) (k : Nat) : Bool :=
  match a.validity with
  | none => false
  | some v => !(v.getD k true)

/-- The stored bit at slot `k`. -/
def valueAt (a : BooleanArray) (k : Nat) : Bool :=
  a.values.getD k false

/-- Well-formedness: a present validity bitmap has one bit per element. -/
def WF (a : BooleanArray) : Prop :=
  ∀ v, a.validity = some v → v.length = a.values.length

/-- `BooleanArray::from_data`. -/
def from_data (values : List Bool) (validity : Option (List Bool)) :
    BooleanArray :=
  ⟨values, validity⟩

end BooleanArray

/-!
Fixed-size-binary arrays and their builder
(`src/array/fixed_size_binary/mutable.rs`)

Bytes (`u8`) are modelled as `Nat`; the `MutableBuffer<u8>` is a `List Nat`.
-/

/-- The immutable `FixedSizeBinaryArray`: `size` bytes per element, a byte
buffer of length `size * len`, optional validity. -/
structure FixedSizeBinaryArray where
  data_type : DataType
  size : Nat
  values : List Nat
  validity : Option (List Bool)
  deriving DecidableEq, Repr

namespace FixedSizeBinaryArray

/-- Modelled from the spec: `FixedSizeBinaryArray::from_data` (defined
outside `src/`) pairs the byte buffer and optional validity with the size
recorded in the `FixedSizeBinary` data type. -/
def from_data (data_type : DataType) (values : List Nat)
    (validity : Option (List Bool)) : FixedSizeBinaryArray :=
  ⟨data_type, (match data_type with
    | .FixedSizeBinary s => s.toNat
    | _ => 0), values, validity⟩

/-- Logical length: `values.len() / size`. -/
def len (a : FixedSizeBinaryArray) : Nat := a.values.length / a.size

/-- Modelled from the spec: `value(i)` on the immutable array returns the raw
`size`-byte slice at logical index `i`, i.e. `&values[i*size..(i+1)*size]`. -/
def value (a : FixedSizeBinaryArray) (i : Nat) : List Nat :=
  ((a.values.drop (i * a.size)).take a.size)

/-- Whether slot `k` is null. -/
def isNullAt (a : FixedSizeBinaryArray) (k : Nat) : Bool :=
  match a.validity with
  | none => false
  | some v => !(v.getD k true)

end FixedSizeBinaryArray

/-- The growable builder `MutableFixedSizeBinaryArray`. -/
structure MutableFixedSizeBinaryArray where
  data_type : DataType
  size : Nat
  values : List Nat
  validity : Option (List Bool)
  deriving DecidableEq, Repr

namespace MutableFixedSizeBinaryArray

/-- `MutableFixedSizeBinaryArray::from_data` without its assertions (the
asserted invariants appear as the `WF` predicate below). -/
def from_data (size : Nat) (values : List Nat)
    (validity : Option (List Bool)) : MutableFixedSizeBinaryArray :=
  ⟨.FixedSizeBinary (size : Int), size, values, validity⟩

/-- `MutableFixedSizeBinaryArray::new(size)`: `with_capacity(size, 0)`, an
empty buffer and no validity. -/
def new (size : Nat) : MutableFixedSizeBinaryArray :=
  from_data size [] none

/-- `MutableArray::len`: `values.len() / size`. -/
def len (a : MutableFixedSizeBinaryArray) : Nat := a.values.length / a.size

/-- The invariants asserted by `from_data` (values length a multiple of
`size`; a present validity has one bit per element), plus `0 < size` —
`size = 0` makes the Rust `len()` divide by zero. -/
def WF (a : MutableFixedSizeBinaryArray) : Prop :=
  0 < a.size ∧ a.values.length % a.size = 0 ∧
    ∀ v, a.validity = some v → v.length = a.values.length / a.size

/-- `init_validity`: materialize the validity bitmap after the first null was
appended — all bits true for the current length, then the last bit cleared. -/
def init_validity (a : MutableFixedSizeBinaryArray) :
    MutableFixedSizeBinaryArray :=
  { a with validity := some ((List.replicate a.len true).set (a.len - 1) false) }

/-- `try_push`: push `some bytes` (rejected with `InvalidArgumentError` if
`bytes.len() != size`, before any mutation) or `none` (append `size` zero
bytes and record the null). Returns the updated builder with the `Result`. -/
def try_push (a : MutableFixedSizeBinaryArray) (value : Option (List Nat)) :
    MutableFixedSizeBinaryArray × Except ArrowError Unit :=
  match value with
  | some bytes =>
    if a.size ≠ bytes.length then
      (a, .error (.InvalidArgumentError
        "FixedSizeBinaryArray requires every item to be of its length"))
    else
      ({ a with
          values := a.values ++ bytes,
          validity := match a.validity with
            | some v => some (v ++ [true])
            | none => none }, .ok ())
  | none =>
    let a' := { a with values := a.values ++ List.replicate a.size 0 }
    match a'.validity with
    | some v => ({ a' with validity := some (v ++ [false]) }, .ok ())
    | none => (a'.init_validity, .ok ())

/-- `MutableArray::push_null` as written in the source: it only extends the
values buffer with `size` zero bytes and does not touch the validity. -/
def push_null (a : MutableFixedSizeBinaryArray) :
    MutableFixedSizeBinaryArray :=
  { a with values := a.values ++ List.replicate a.size 0 }

/-- `From<MutableFixedSizeBinaryArray> for FixedSizeBinaryArray`: freeze by
moving the buffer and validity. -/
def freeze (a : MutableFixedSizeBinaryArray) : FixedSizeBinaryArray :=
  FixedSizeBinaryArray.from_data a.data_type a.values a.validity

/-- Apply a sequence of `try_push` calls to a builder, failing fast on the
first rejected push (as `try_from_iter` does with `?`). -/
def pushAll (a : MutableFixedSizeBinaryArray) :
    List (Option (List Nat)) → Except ArrowError MutableFixedSizeBinaryArray
  | [] => .ok a
  | p :: ps =>
    match try_push a p with
    | (a', .ok ()) => pushAll a' ps
    | (_, .error e) => .error e

end MutableFixedSizeBinaryArray

/-!
The take (gather) kernels
(`src/compute/take/primitive.rs` and `src/compute/take/boolean.rs`)

The four strategy functions are parameterized by a `get` accessor exactly as
the Rust functions are parameterized by a closure `F`; the checked kernels
pass bounds-checked accessors failing with `KeyOverflowError`, the unchecked
kernels pass `get_unchecked` accessors (out-of-bounds reads, undefined
behavior in Rust, read an arbitrary fixed value here).

`boolean.rs` duplicates `primitive.rs` only because a `Bitmap` is not a
slice; with bitmaps modelled as `List Bool` the boolean strategies are the
primitive ones at `α = Bool` (the boolean `None => Ok(false)` arm coincides
with `T::default()` since `default = false`), so the strategies are defined
once, generically, and dispatched from four kernel entry points.
-/

namespace Take

variable {α : Type}

/-- The checked accessor closure of `take`:
`values.get(index).copied().ok_or(KeyOverflowError)`. -/
def getChecked (values : List α) (index : Nat) : Except ArrowError α :=
  match values[index]? with
  | some v => .ok v
  | none => .error .KeyOverflowError

/-- The checked accessor closure of the values-validity strategies: the value
and its validity bit, each `ok_or(KeyOverflowError)`. -/
def getPairChecked (values : List α) (validity : List Bool) (index : Nat) :
    Except ArrowError (α × Bool) := do
  let v ← getChecked values index
  let b ← match validity[index]? with
    | some b => .ok b
    | none => .error .KeyOverflowError
  .ok (v, b)

/-- The unchecked accessor closure of `take_unchecked`:
`Ok(*values.get_unchecked(index))`; an out-of-bounds read (UB in Rust)
returns `default`. -/
def getUnchecked [Inhabited α] (values : List α) (index : Nat) :
    Except ArrowError α :=
  .ok (values.getD index default)

/-- The unchecked pair accessor of `take_unchecked`. -/
def getPairUnchecked [Inhabited α] (values : List α) (validity : List Bool)
    (index : Nat) : Except ArrowError (α × Bool) :=
  .ok (values.getD index default, validity.getD index false)

/-- Body of `take_no_validity`: map each index through `maybe_usize` and
`get`, failing fast (`try_from_trusted_len_iter`). -/
def noValidityGo (values : List α) (get : List α → Nat → Except ArrowError α) :
    List Int → Except ArrowError (List α)
  | [] => .ok []
  | i :: rest => do
    let index ← maybe_usize i
    let v ← get values index
    let tail ← noValidityGo values get rest
    .ok (v :: tail)

/-- `take_no_validity`: neither side nullable; output validity is `None`. -/
def take_no_validity (values : List α) (indices : List Int)
    (get : List α → Nat → Except ArrowError α) :
    Except ArrowError (List α × Option (List Bool)) := do
  let buffer ← noValidityGo values get indices
  .ok (buffer, none)

/-- Body of `take_values_validity`: per index, fetch the value and its
validity bit and push the bit onto the output validity. -/
def valuesValidityGo (vv : List α) (vval : List Bool)
    (get : List α → List Bool → Nat → Except ArrowError (α × Bool)) :
    List Int → Except ArrowError (List α × List Bool)
  | [] => .ok ([], [])
  | i :: rest => do
    let index ← maybe_usize i
    let p ← get vv vval index
    let tail ← valuesValidityGo vv vval get rest
    .ok (p.1 :: tail.1, p.2 :: tail.2)

/-- `take_values_validity`: only the values are nullable. The source unwraps
`values.validity()`; call sites guarantee it is present (`null_count > 0`),
and the unwrap is modelled by `getD []`. The built `MutableBitmap` becomes a
present output validity. -/
def take_values_validity (values : PrimitiveArray α) (indices : List Int)
    (get : List α → List Bool → Nat → Except ArrowError (α × Bool)) :
    Except ArrowError (List α × Option (List Bool)) := do
  let vval := values.validity.getD []
  let r ← valuesValidityGo values.values vval get indices
  .ok (r.1, some r.2)

/-- Body of `take_indices_validity`: iterate `indices.iter()`; a null index
contributes `T::default()` with no bounds check. -/
def indicesValidityGo [Inhabited α] (values : List α)
    (get : List α → Nat → Except ArrowError α) :
    List (Option Int) → Except ArrowError (List α)
  | [] => .ok []
  | some i :: rest => do
    let index ← maybe_usize i
    let v ← get values index
    let tail ← indicesValidityGo values get rest
    .ok (v :: tail)
  | none :: rest => do
    let tail ← indicesValidityGo values get rest
    .ok ((default : α) :: tail)

/-- `take_indices_validity`: only the indices are nullable; the output
validity is `indices.validity().clone()`. -/
def take_indices_validity [Inhabited α] (values : List α)
    (indices : PrimitiveArray Int)
    (get : List α → Nat → Except ArrowError α) :
    Except ArrowError (List α × Option (List Bool)) := do
  let buffer ← indicesValidityGo values get indices.iter
  .ok (buffer, indices.validity)

/-- Body of `take_values_indices_validity`: per slot of `indices.iter()`,
either fetch value and validity bit, or push `false` and `T::default()`. -/
def valuesIndicesValidityGo [Inhabited α] (vv : List α) (vval : List Bool)
    (get : List α → List Bool → Nat → Except ArrowError (α × Bool)) :
    List (Option Int) → Except ArrowError (List α × List Bool)
  | [] => .ok ([], [])
  | some i :: rest => do
    let index ← maybe_usize i
    let p ← get vv vval index
    let tail ← valuesIndicesValidityGo vv vval get rest
    .ok (p.1 :: tail.1, p.2 :: tail.2)
  | none :: rest => do
    let tail ← valuesIndicesValidityGo vv vval get rest
    .ok ((default : α) :: tail.1, false :: tail.2)

/-- `take_values_indices_validity`: both sides nullable. -/
def take_values_indices_validity [Inhabited α] (values : PrimitiveArray α)
    (indices : PrimitiveArray Int)
    (get : List α → List Bool → Nat → Except ArrowError (α × Bool)) :
    Except ArrowError (List α × Option (List Bool)) := do
  let vval := values.validity.getD []
  let r ← valuesIndicesValidityGo values.values vval get indices.iter
  .ok (r.1, some r.2)

/-- Dispatch shared by the checked and unchecked kernels: match on
`(values.null_count() > 0, indices.null_count() > 0)`. -/
def dispatch [Inhabited α] (values : PrimitiveArray α)
    (indices : PrimitiveArray Int)
    (get : List α → Nat → Except ArrowError α)
    (getPair : List α → List Bool → Nat → Except ArrowError (α × Bool)) :
    Except ArrowError (List α × Option (List Bool)) :=
  let indices_has_validity : Bool := indices.null_count > 0
  let values_has_validity : Bool := values.null_count > 0
  match values_has_validity, indices_has_validity with
  | false, false => take_no_validity values.values indices.values get
  | true, false => take_values_validity values indices.values getPair
  | false, true => take_indices_validity values.values indices get
  | true, true => take_values_indices_validity values indices getPair

/-- `take` for primitive arrays (checked). -/
def take [Inhabited α] (values : PrimitiveArray α)
    (indices : PrimitiveArray Int) :
    Except ArrowError (PrimitiveArray α) := do
  let r ← dispatch values indices getChecked getPairChecked
  .ok (PrimitiveArray.from_data values.data_type r.1 r.2)

/-- `take_unchecked` for primitive arrays. -/
def take_unchecked [Inhabited α] (values : PrimitiveArray α)
    (indices : PrimitiveArray Int) :
    Except ArrowError (PrimitiveArray α) := do
  let r ← dispatch values indices getUnchecked getPairUnchecked
  .ok (PrimitiveArray.from_data values.data_type r.1 r.2)

/-- View a `BooleanArray` as a `PrimitiveArray Bool` to feed the shared
strategies (`boolean.rs` repeats them verbatim over `Bitmap`). -/
def BooleanArray.asPrimitive (a : BooleanArray) : PrimitiveArray Bool :=
  ⟨.Boolean, a.values, a.validity⟩

/-- `take` for boolean arrays (checked); `values.get(index)` on the bitmap is
already an `Option`, so the closure is `get(index).ok_or(KeyOverflowError)`. -/
def takeBool (values : BooleanArray) (indices : PrimitiveArray Int) :
    Except ArrowError BooleanArray := do
  let r ← dispatch (BooleanArray.asPrimitive values) indices getChecked
    getPairChecked
  .ok (BooleanArray.from_data r.1 r.2)

/-- `take_unchecked` for boolean arrays. -/
def takeBoolUnchecked (values : BooleanArray) (indices : PrimitiveArray Int) :
    Except ArrowError BooleanArray := do
  let r ← dispatch (BooleanArray.asPrimitive values) indices getUnchecked
    getPairUnchecked
  .ok (BooleanArray.from_data r.1 r.2)

/-- The per-slot buffer value of the indices-validity strategies: the looked
up value for a non-null index, `T::default()` for a null one. -/
def slotValue [Inhabited α] (values : List α) : Option Int → α
  | some i => values.getD i.toNat default
  | none => default

/-- The per-slot validity bit of the values-indices-validity strategy. -/
def slotBit (vval : List Bool) : Option Int → Bool
  | some i => vval.getD i.toNat false
  | none => false

end Take

/-!
The Simd8 lane abstraction
(`src/compute/comparison/simd/packed.rs`)

The per-type `simd8!` instantiations are mechanical; the embedding is one
generic definition over the element type. An 8-lane vector is a function
`Fin 8 → α`.
-/

namespace Simd8

variable {α : Type}

/-- `from_chunk`: load eight contiguous values
(`from_slice_unaligned`; callers pass slices of length 8). -/
def from_chunk [Inhabited α] (v : List α) : Fin 8 → α :=
  fun i => v.getD i.val default

/-- `from_incomplete_chunk(v, remaining)`: start from `[remaining; 8]`,
overwrite the low lanes with `v`, and load the result. -/
def from_incomplete_chunk [Inhabited α] (v : List α) (remaining : α) :
    Fin 8 → α :=
  from_chunk ((List.range 8).map (fun i => v.getD i remaining))

/-- Modelled from the spec: the 8-bit mask extraction of the external
`packed_simd` crate — "an 8-bit mask where bit i is set iff the comparison
holds for lane i". -/
def bitmask (p : Fin 8 → Bool) : Nat :=
  ∑ i : Fin 8, if p i then 2 ^ (i : Nat) else 0

/-- `Simd8PartialEq::eq`: lane-wise equality, then `bitmask()`. -/
def eq [DecidableEq α] (x y : Fin 8 → α) : Nat :=
  bitmask (fun i => x i = y i)

/-- `Simd8PartialEq::neq`: lane-wise inequality, then `bitmask()`. -/
def neq [DecidableEq α] (x y : Fin 8 → α) : Nat :=
  bitmask (fun i => x i ≠ y i)

end Simd8

namespace MutableFixedSizeBinaryArray

/-- The byte content a push contributes to the buffer: the pushed bytes for
`some`, `size` zero bytes for `none`. -/
def slotBytes (size : Nat) : Option (List Nat) → List Nat
  | some b => b
  | none => List.replicate size 0

/-- The validity a sequence of pushes leaves behind: absent while no null was
pushed, otherwise one bit per push. -/
def builtValidity (ps : List (Option (List Nat))) : Option (List Bool) :=
  if ps.all Option.isSome then none else some (ps.map Option.isSome)

/-- The builder state reached after `pushAll` of `ps` on a fresh builder of
element size `size`. -/
@[reducible] def InvState (size : Nat) (ps : List (Option (List Nat)))
    (b : MutableFixedSizeBinaryArray) : Prop :=
  b.size = size ∧ b.data_type = .FixedSizeBinary (size : Int) ∧
    b.values = (ps.map (slotBytes size)).flatten ∧
    b.validity = builtValidity ps

end MutableFixedSizeBinaryArray

/-!
Lemmas: monadic plumbing and accessor characterizations
-/

theorem okBind {E A B : Type} (a : A) (f : A → Except E B) :
    (Except.ok a >>= f) = f a := rfl

theorem errBind {E A B : Type} (e : E) (f : A → Except E B) :
    ((Except.error e : Except E A) >>= f) = .error e := rfl

theorem maybe_usize_ok {i : Int} (h : 0 ≤ i) :
    maybe_usize i = .ok i.toNat := if_pos h

theorem maybe_usize_err {i : Int} (h : ¬ 0 ≤ i) :
    maybe_usize i = .error .KeyOverflowError := if_neg h

namespace Take

variable {α : Type}

theorem getChecked_ok [Inhabited α] {values : List α} {n : Nat}
    (h : n < values.length) :
    getChecked values n = .ok (values.getD n default) := by
  simp [getChecked, List.getElem?_eq_getElem h, List.getD_eq_getElem?_getD]

theorem getChecked_err {values : List α} {n : Nat}
    (h : ¬ n < values.length) :
    getChecked values n = .error .KeyOverflowError := by
  simp [getChecked, List.getElem?_eq_none (Nat.le_of_not_lt h)]

theorem getPairChecked_ok [Inhabited α] {values : List α}
    {validity : List Bool} {n : Nat} (h1 : n < values.length)
    (h2 : n < validity.length) :
    getPairChecked values validity n =
      .ok (values.getD n default, validity.getD n false) := by
  simp [getPairChecked, getChecked_ok h1, okBind,
    List.getElem?_eq_getElem h2, List.getD_eq_getElem?_getD]

theorem getPairChecked_err [Inhabited α] {values : List α}
    {validity : List Bool} {n : Nat}
    (h : ¬ (n < values.length ∧ n < validity.length)) :
    getPairChecked values validity n = .error .KeyOverflowError := by
  by_cases h1 : n < values.length
  · have h2 : ¬ n < validity.length := fun h2 => h ⟨h1, h2⟩
    simp [getPairChecked, getChecked_ok h1, okBind,
      List.getElem?_eq_none (Nat.le_of_not_lt h2), errBind]
  · simp [getPairChecked, getChecked_err h1, errBind]

theorem noValidityGo_checked_ok [Inhabited α] {values : List α}
    {l : List Int} (h : ∀ i ∈ l, 0 ≤ i ∧ i.toNat < values.length) :
    noValidityGo values getChecked l =
      .ok (l.map (fun i => values.getD i.toNat default)) := by
  induction l with
  | nil => rfl
  | cons i rest ih =>
    obtain ⟨h1, h2⟩ := h i (List.mem_cons_self i rest)
    rw [noValidityGo, maybe_usize_ok h1, okBind, getChecked_ok h2, okBind,
      ih (fun j hj => h j (List.mem_cons_of_mem i hj)), okBind, List.map_cons]

theorem noValidityGo_checked_err [Inhabited α] {values : List α}
    {l : List Int} (h : ¬ ∀ i ∈ l, 0 ≤ i ∧ i.toNat < values.length) :
    noValidityGo values getChecked l = .error .KeyOverflowError := by
  induction l with
  | nil => exact absurd (by simp) h
  | cons i rest ih =>
    by_cases h1 : 0 ≤ i
    · by_cases h2 : i.toNat < values.length
      · have hrest : ¬ ∀ j ∈ rest, 0 ≤ j ∧ j.toNat < values.length := by
          intro hr
          exact h (fun j hj => (List.mem_cons.mp hj).elim
            (fun e => e ▸ ⟨h1, h2⟩) (hr j))
        rw [noValidityGo, maybe_usize_ok h1, okBind, getChecked_ok h2, okBind,
          ih hrest, errBind]
      · rw [noValidityGo, maybe_usize_ok h1, okBind, getChecked_err h2, errBind]
    · rw [noValidityGo, maybe_usize_err h1, errBind]

theorem noValidityGo_unchecked_ok [Inhabited α] {values : List α}
    {l : List Int} (h : ∀ i ∈ l, 0 ≤ i) :
    noValidityGo values getUnchecked l =
      .ok (l.map (fun i => values.getD i.toNat default)) := by
  induction l with
  | nil => rfl
  | cons i rest ih =>
    rw [noValidityGo, maybe_usize_ok (h i (List.mem_cons_self i rest)), okBind,
      getUnchecked, okBind,
      ih (fun j hj => h j (List.mem_cons_of_mem i hj)), okBind, List.map_cons]

theorem valuesValidityGo_checked_ok [Inhabited α] {vv : List α}
    {vval : List Bool} {l : List Int}
    (h : ∀ i ∈ l, 0 ≤ i ∧ i.toNat < vv.length ∧ i.toNat < vval.length) :
    valuesValidityGo vv vval getPairChecked l =
      .ok (l.map (fun i => vv.getD i.toNat default),
           l.map (fun i => vval.getD i.toNat false)) := by
  induction l with
  | nil => rfl
  | cons i rest ih =>
    obtain ⟨h1, h2, h3⟩ := h i (List.mem_cons_self i rest)
    rw [valuesValidityGo, maybe_usize_ok h1, okBind, getPairChecked_ok h2 h3,
      okBind, ih (fun j hj => h j (List.mem_cons_of_mem i hj)), okBind,
      List.map_cons, List.map_cons]

theorem valuesValidityGo_checked_err [Inhabited α] {vv : List α}
    {vval : List Bool} {l : List Int}
    (h : ¬ ∀ i ∈ l, 0 ≤ i ∧ i.toNat < vv.length ∧ i.toNat < vval.length) :
    valuesValidityGo vv vval getPairChecked l = .error .KeyOverflowError := by
  induction l with
  | nil => exact absurd (by simp) h
  | cons i rest ih =>
    by_cases h1 : 0 ≤ i
    · by_cases h2 : i.toNat < vv.length ∧ i.toNat < vval.length
      · have hrest : ¬ ∀ j ∈ rest,
            0 ≤ j ∧ j.toNat < vv.length ∧ j.toNat < vval.length := by
          intro hr
          exact h (fun j hj => (List.mem_cons.mp hj).elim
            (fun e => e ▸ ⟨h1, h2.1, h2.2⟩) (hr j))
        rw [valuesValidityGo, maybe_usize_ok h1, okBind,
          getPairChecked_ok h2.1 h2.2, okBind, ih hrest, errBind]
      · rw [valuesValidityGo, maybe_usize_ok h1, okBind, getPairChecked_err h2,
          errBind]
    · rw [valuesValidityGo, maybe_usize_err h1, errBind]

theorem valuesValidityGo_unchecked_ok [Inhabited α] {vv : List α}
    {vval : List Bool} {l : List Int} (h : ∀ i ∈ l, 0 ≤ i) :
    valuesValidityGo vv vval getPairUnchecked l =
      .ok (l.map (fun i => vv.getD i.toNat default),
           l.map (fun i => vval.getD i.toNat false)) := by
  induction l with
  | nil => rfl
  | cons i rest ih =>
    rw [valuesValidityGo, maybe_usize_ok (h i (List.mem_cons_self i rest)),
      okBind, getPairUnchecked, okBind,
      ih (fun j hj => h j (List.mem_cons_of_mem i hj)), okBind,
      List.map_cons, List.map_cons]

theorem indicesValidityGo_checked_ok [Inhabited α] {values : List α}
    {l : List (Option Int)}
    (h : ∀ oi ∈ l, ∀ i, oi = some i → 0 ≤ i ∧ i.toNat < values.length) :
    indicesValidityGo values getChecked l = .ok (l.map (slotValue values)) := by
  induction l with
  | nil => rfl
  | cons oi rest ih =>
    have ihr := ih (fun j hj => h j (List.mem_cons_of_mem oi hj))
    cases oi with
    | some i =>
      obtain ⟨h1, h2⟩ := h (some i) (List.mem_cons_self _ rest) i rfl
      rw [indicesValidityGo, maybe_usize_ok h1, okBind, getChecked_ok h2,
        okBind, ihr, okBind, List.map_cons, slotValue]
    | none =>
      rw [indicesValidityGo, ihr, okBind, List.map_cons, slotValue]

theorem indicesValidityGo_checked_err [Inhabited α] {values : List α}
    {l : List (Option Int)}
    (h : ¬ ∀ oi ∈ l, ∀ i, oi = some i → 0 ≤ i ∧ i.toNat < values.length) :
    indicesValidityGo values getChecked l = .error .KeyOverflowError := by
  induction l with
  | nil => exact absurd (by simp) h
  | cons oi rest ih =>
    have hstep : (∀ i, oi = some i → 0 ≤ i ∧ i.toNat < values.length) →
        ¬ ∀ j ∈ rest, ∀ i, j = some i → 0 ≤ i ∧ i.toNat < values.length := by
      intro hoi hr
      exact h (fun j hj => (List.mem_cons.mp hj).elim
        (fun e => e ▸ hoi) (hr j))
    cases oi with
    | some i =>
      by_cases h1 : 0 ≤ i
      · by_cases h2 : i.toNat < values.length
        · rw [indicesValidityGo, maybe_usize_ok h1, okBind, getChecked_ok h2,
            okBind, ih (hstep (fun j e => (Option.some_inj.mp e) ▸ ⟨h1, h2⟩)),
            errBind]
        · rw [indicesValidityGo, maybe_usize_ok h1, okBind, getChecked_err h2,
            errBind]
      · rw [indicesValidityGo, maybe_usize_err h1, errBind]
    | none =>
      rw [indicesValidityGo,
        ih (hstep (fun j e => by cases e)), errBind]

theorem indicesValidityGo_unchecked_ok [Inhabited α] {values : List α}
    {l : List (Option Int)} (h : ∀ oi ∈ l, ∀ i, oi = some i → 0 ≤ i) :
    indicesValidityGo values getUnchecked l =
      .ok (l.map (slotValue values)) := by
  induction l with
  | nil => rfl
  | cons oi rest ih =>
    have ihr := ih (fun j hj => h j (List.mem_cons_of_mem oi hj))
    cases oi with
    | some i =>
      rw [indicesValidityGo, maybe_usize_ok
          (h (some i) (List.mem_cons_self _ rest) i rfl), okBind,
        getUnchecked, okBind, ihr, okBind, List.map_cons, slotValue]
    | none =>
      rw [indicesValidityGo, ihr, okBind, List.map_cons, slotValue]

theorem valuesIndicesValidityGo_checked_ok [Inhabited α] {vv : List α}
    {vval : List Bool} {l : List (Option Int)}
    (h : ∀ oi ∈ l, ∀ i, oi = some i →
      0 ≤ i ∧ i.toNat < vv.length ∧ i.toNat < vval.length) :
    valuesIndicesValidityGo vv vval getPairChecked l =
      .ok (l.map (slotValue vv), l.map (slotBit vval)) := by
  induction l with
  | nil => rfl
  | cons oi rest ih =>
    have ihr := ih (fun j hj => h j (List.mem_cons_of_mem oi hj))
    cases oi with
    | some i =>
      obtain ⟨h1, h2, h3⟩ := h (some i) (List.mem_cons_self _ rest) i rfl
      rw [valuesIndicesValidityGo, maybe_usize_ok h1, okBind,
        getPairChecked_ok h2 h3, okBind, ihr, okBind, List.map_cons,
        List.map_cons, slotValue, slotBit]
    | none =>
      rw [valuesIndicesValidityGo, ihr, okBind, List.map_cons, List.map_cons,
        slotValue, slotBit]

theorem valuesIndicesValidityGo_checked_err [Inhabited α] {vv : List α}
    {vval : List Bool} {l : List (Option Int)}
    (h : ¬ ∀ oi ∈ l, ∀ i, oi = some i →
      0 ≤ i ∧ i.toNat < vv.length ∧ i.toNat < vval.length) :
    valuesIndicesValidityGo vv vval getPairChecked l =
      .error .KeyOverflowError := by
  induction l with
  | nil => exact absurd (by simp) h
  | cons oi rest ih =>
    have hstep : (∀ i, oi = some i →
        0 ≤ i ∧ i.toNat < vv.length ∧ i.toNat < vval.length) →
        ¬ ∀ j ∈ rest, ∀ i, j = some i →
          0 ≤ i ∧ i.toNat < vv.length ∧ i.toNat < vval.length := by
      intro hoi hr
      exact h (fun j hj => (List.mem_cons.mp hj).elim
        (fun e => e ▸ hoi) (hr j))
    cases oi with
    | some i =>
      by_cases h1 : 0 ≤ i
      · by_cases h2 : i.toNat < vv.length ∧ i.toNat < vval.length
        · rw [valuesIndicesValidityGo, maybe_usize_ok h1, okBind,
            getPairChecked_ok h2.1 h2.2, okBind,
            ih (hstep (fun j e =>
              (Option.some_inj.mp e) ▸ ⟨h1, h2.1, h2.2⟩)), errBind]
        · rw [valuesIndicesValidityGo, maybe_usize_ok h1, okBind,
            getPairChecked_err h2, errBind]
      · rw [valuesIndicesValidityGo, maybe_usize_err h1, errBind]
    | none =>
      rw [valuesIndicesValidityGo,
        ih (hstep (fun j e => by cases e)), errBind]

theorem valuesIndicesValidityGo_unchecked_ok [Inhabited α] {vv : List α}
    {vval : List Bool} {l : List (Option Int)}
    (h : ∀ oi ∈ l, ∀ i, oi = some i → 0 ≤ i) :
    valuesIndicesValidityGo vv vval getPairUnchecked l =
      .ok (l.map (slotValue vv), l.map (slotBit vval)) := by
  induction l with
  | nil => rfl
  | cons oi rest ih =>
    have ihr := ih (fun j hj => h j (List.mem_cons_of_mem oi hj))
    cases oi with
    | some i =>
      rw [valuesIndicesValidityGo, maybe_usize_ok
          (h (some i) (List.mem_cons_self _ rest) i rfl), okBind,
        getPairUnchecked, okBind, ihr, okBind, List.map_cons, List.map_cons,
        slotValue, slotBit]
    | none =>
      rw [valuesIndicesValidityGo, ihr, okBind, List.map_cons, List.map_cons,
        slotValue, slotBit]

end Take

theorem getD_map_lt {β γ : Type} {l : List β} {f : β → γ} {k : Nat}
    (hk : k < l.length) (d : γ) (d' : β) :
    (l.map f).getD k d = f (l.getD k d') := by
  rw [List.getD_eq_getElem?_getD, List.getD_eq_getElem?_getD,
    List.getElem?_map, List.getElem?_eq_getElem hk]
  rfl

namespace PrimitiveArray

variable {α : Type}

theorem all_true_of_count_false_zero {v : List Bool}
    (h : v.count false = 0) : ∀ b ∈ v, b = true := by
  intro b hb
  cases b with
  | false => exact absurd hb (List.count_eq_zero.mp h)
  | true => rfl

theorem isNullAt_of_null_count_zero {a : PrimitiveArray α}
    (h : a.null_count = 0) (k : Nat) : a.isNullAt k = false := by
  cases hv : a.validity with
  | none => simp [isNullAt, hv]
  | some v =>
    simp only [null_count, hv] at h
    simp only [isNullAt, hv]
    rw [List.getD_eq_getElem?_getD]
    cases hb : v[k]? with
    | none => rfl
    | some b =>
      rw [all_true_of_count_false_zero h b (List.getElem?_mem hb)]
      rfl

theorem validity_of_null_count_pos {a : PrimitiveArray α}
    (h : 0 < a.null_count) : ∃ v, a.validity = some v := by
  cases hv : a.validity with
  | none => rw [null_count, hv] at h; exact absurd h (by simp)
  | some v => exact ⟨v, rfl⟩

theorem zip_map_all_true {β : Type} :
    ∀ (xs : List β) (v : List Bool), (∀ b ∈ v, b = true) →
      v.length = xs.length →
      (xs.zip v).map (fun p => if p.2 then some p.1 else none) =
        xs.map some := by
  intro xs
  induction xs with
  | nil => intro v _ _; simp
  | cons x xs ih =>
    intro v hmem hlen
    cases v with
    | nil => simp at hlen
    | cons b bs =>
      rw [List.zip_cons_cons, List.map_cons, List.map_cons,
        hmem b (List.mem_cons_self b bs), if_pos rfl]
      exact congrArg _ (ih bs (fun c hc => hmem c (List.mem_cons_of_mem b hc))
        (by simpa using hlen))

theorem iter_of_null_count_zero {a : PrimitiveArray α} (hwf : a.WF)
    (h : a.null_count = 0) : a.iter = a.values.map some := by
  cases hv : a.validity with
  | none => simp [iter, hv]
  | some v =>
    simp only [null_count, hv] at h
    simp only [iter, hv]
    exact zip_map_all_true a.values v (all_true_of_count_false_zero h)
      (hwf v hv)

theorem iter_length {a : PrimitiveArray α} (hwf : a.WF) :
    a.iter.length = a.values.length := by
  unfold iter
  cases hv : a.validity with
  | none => simp
  | some v => simp [hwf v hv]

theorem iter_getD [Inhabited α] {a : PrimitiveArray α} (hwf : a.WF) {k : Nat}
    (hk : k < a.values.length) :
    a.iter.getD k none =
      if a.isNullAt k then none else some (a.values.getD k default) := by
  cases hv : a.validity with
  | none =>
    simp only [iter, isNullAt, hv]
    rw [getD_map_lt hk none default, if_neg (by simp)]
  | some v =>
    have hlen := hwf v hv
    have hkv : k < v.length := hlen ▸ hk
    have hkz : k < (a.values.zip v).length := by
      simpa [List.length_zip, hlen] using hk
    simp only [iter, isNullAt, hv]
    rw [getD_map_lt hkz none (default, true), List.getD_eq_getElem _ _ hkz,
      List.getElem_zip, List.getD_eq_getElem _ _ hk,
      List.getD_eq_getElem _ _ hkv]
    cases hb : v[k] <;> simp [hb]

end PrimitiveArray

namespace Take

variable {α : Type}

theorem dispatch_ff [Inhabited α] {values : PrimitiveArray α}
    {indices : PrimitiveArray Int} {get gp}
    (hv : values.null_count = 0) (hi : indices.null_count = 0) :
    dispatch values indices get gp =
      take_no_validity values.values indices.values get := by
  simp [dispatch, hv, hi]

theorem dispatch_tf [Inhabited α] {values : PrimitiveArray α}
    {indices : PrimitiveArray Int} {get gp}
    (hv : 0 < values.null_count) (hi : indices.null_count = 0) :
    dispatch values indices get gp =
      take_values_validity values indices.values gp := by
  simp [dispatch, hi, decide_eq_true hv]

theorem dispatch_ft [Inhabited α] {values : PrimitiveArray α}
    {indices : PrimitiveArray Int} {get gp}
    (hv : values.null_count = 0) (hi : 0 < indices.null_count) :
    dispatch values indices get gp =
      take_indices_validity values.values indices get := by
  simp [dispatch, hv, decide_eq_true hi]

theorem dispatch_tt [Inhabited α] {values : PrimitiveArray α}
    {indices : PrimitiveArray Int} {get gp}
    (hv : 0 < values.null_count) (hi : 0 < indices.null_count) :
    dispatch values indices get gp =
      take_values_indices_validity values indices gp := by
  simp [dispatch, decide_eq_true hv, decide_eq_true hi]

theorem take_ff_ok [Inhabited α] {values : PrimitiveArray α}
    {indices : PrimitiveArray Int}
    (hv : values.null_count = 0) (hi : indices.null_count = 0)
    (g : ∀ i ∈ indices.values, 0 ≤ i ∧ i.toNat < values.values.length) :
    take values indices = .ok ⟨values.data_type,
      indices.values.map (fun i => values.values.getD i.toNat default),
      none⟩ := by
  rw [take, dispatch_ff hv hi, take_no_validity, noValidityGo_checked_ok g,
    okBind, okBind]
  rfl

theorem take_ff_err [Inhabited α] {values : PrimitiveArray α}
    {indices : PrimitiveArray Int}
    (hv : values.null_count = 0) (hi : indices.null_count = 0)
    (g : ¬ ∀ i ∈ indices.values, 0 ≤ i ∧ i.toNat < values.values.length) :
    take values indices = .error .KeyOverflowError := by
  rw [take, dispatch_ff hv hi, take_no_validity, noValidityGo_checked_err g,
    errBind, errBind]

theorem take_tf_ok [Inhabited α] {values : PrimitiveArray α}
    {indices : PrimitiveArray Int} {v : List Bool}
    (hwf : values.WF) (hsome : values.validity = some v)
    (hv : 0 < values.null_count) (hi : indices.null_count = 0)
    (g : ∀ i ∈ indices.values, 0 ≤ i ∧ i.toNat < values.values.length) :
    take values indices = .ok ⟨values.data_type,
      indices.values.map (fun i => values.values.getD i.toNat default),
      some (indices.values.map (fun i => v.getD i.toNat false))⟩ := by
  have hlen := hwf v hsome
  have g3 : ∀ i ∈ indices.values,
      0 ≤ i ∧ i.toNat < values.values.length ∧ i.toNat < v.length := by
    intro i hi'
    obtain ⟨h1, h2⟩ := g i hi'
    exact ⟨h1, h2, hlen ▸ h2⟩
  rw [take, dispatch_tf hv hi, take_values_validity, hsome]
  rw [show (some v).getD [] = v from rfl, valuesValidityGo_checked_ok g3,
    okBind, okBind]
  rfl

theorem take_tf_err [Inhabited α] {values : PrimitiveArray α}
    {indices : PrimitiveArray Int} {v : List Bool}
    (hwf : values.WF) (hsome : values.validity = some v)
    (hv : 0 < values.null_count) (hi : indices.null_count = 0)
    (g : ¬ ∀ i ∈ indices.values, 0 ≤ i ∧ i.toNat < values.values.length) :
    take values indices = .error .KeyOverflowError := by
  have hlen := hwf v hsome
  have g3 : ¬ ∀ i ∈ indices.values,
      0 ≤ i ∧ i.toNat < values.values.length ∧ i.toNat < v.length := by
    intro h
    exact g (fun i hi' => ⟨(h i hi').1, (h i hi').2.1⟩)
  rw [take, dispatch_tf hv hi, take_values_validity, hsome]
  rw [show (some v).getD [] = v from rfl, valuesValidityGo_checked_err g3,
    errBind, errBind]

theorem take_ft_ok [Inhabited α] {values : PrimitiveArray α}
    {indices : PrimitiveArray Int}
    (hv : values.null_count = 0) (hi : 0 < indices.null_count)
    (g : ∀ oi ∈ indices.iter, ∀ i, oi = some i →
      0 ≤ i ∧ i.toNat < values.values.length) :
    take values indices = .ok ⟨values.data_type,
      indices.iter.map (slotValue values.values), indices.validity⟩ := by
  rw [take, dispatch_ft hv hi, take_indices_validity,
    indicesValidityGo_checked_ok g, okBind, okBind]
  rfl

theorem take_ft_err [Inhabited α] {values : PrimitiveArray α}
    {indices : PrimitiveArray Int}
    (hv : values.null_count = 0) (hi : 0 < indices.null_count)
    (g : ¬ ∀ oi ∈ indices.iter, ∀ i, oi = some i →
      0 ≤ i ∧ i.toNat < values.values.length) :
    take values indices = .error .KeyOverflowError := by
  rw [take, dispatch_ft hv hi, take_indices_validity,
    indicesValidityGo_checked_err g, errBind, errBind]

theorem take_tt_ok [Inhabited α] {values : PrimitiveArray α}
    {indices : PrimitiveArray Int} {v : List Bool}
    (hwf : values.WF) (hsome : values.validity = some v)
    (hv : 0 < values.null_count) (hi : 0 < indices.null_count)
    (g : ∀ oi ∈ indices.iter, ∀ i, oi = some i →
      0 ≤ i ∧ i.toNat < values.values.length) :
    take values indices = .ok ⟨values.data_type,
      indices.iter.map (slotValue values.values),
      some (indices.iter.map (slotBit v))⟩ := by
  have hlen := hwf v hsome
  have g3 : ∀ oi ∈ indices.iter, ∀ i, oi = some i →
      0 ≤ i ∧ i.toNat < values.values.length ∧ i.toNat < v.length := by
    intro oi ho i he
    obtain ⟨h1, h2⟩ := g oi ho i he
    exact ⟨h1, h2, hlen ▸ h2⟩
  rw [take, dispatch_tt hv hi, take_values_indices_validity, hsome]
  rw [show (some v).getD [] = v from rfl,
    valuesIndicesValidityGo_checked_ok g3, okBind, okBind]
  rfl

theorem take_tt_err [Inhabited α] {values : PrimitiveArray α}
    {indices : PrimitiveArray Int} {v : List Bool}
    (hwf : values.WF) (hsome : values.validity = some v)
    (hv : 0 < values.null_count) (hi : 0 < indices.null_count)
    (g : ¬ ∀ oi ∈ indices.iter, ∀ i, oi = some i →
      0 ≤ i ∧ i.toNat < values.values.length) :
    take values indices = .error .KeyOverflowError := by
  have hlen := hwf v hsome
  have g3 : ¬ ∀ oi ∈ indices.iter, ∀ i, oi = some i →
      0 ≤ i ∧ i.toNat < values.values.length ∧ i.toNat < v.length := by
    intro h
    exact g (fun oi ho i he => ⟨(h oi ho i he).1, (h oi ho i he).2.1⟩)
  rw [take, dispatch_tt hv hi, take_values_indices_validity, hsome]
  rw [show (some v).getD [] = v from rfl,
    valuesIndicesValidityGo_checked_err g3, errBind, errBind]

theorem take_unchecked_ff_ok [Inhabited α] {values : PrimitiveArray α}
    {indices : PrimitiveArray Int}
    (hv : values.null_count = 0) (hi : indices.null_count = 0)
    (g : ∀ i ∈ indices.values, 0 ≤ i) :
    take_unchecked values indices = .ok ⟨values.data_type,
      indices.values.map (fun i => values.values.getD i.toNat default),
      none⟩ := by
  rw [take_unchecked, dispatch_ff hv hi, take_no_validity,
    noValidityGo_unchecked_ok g, okBind, okBind]
  rfl

theorem take_unchecked_tf_ok [Inhabited α] {values : PrimitiveArray α}
    {indices : PrimitiveArray Int} {v : List Bool}
    (hsome : values.validity = some v)
    (hv : 0 < values.null_count) (hi : indices.null_count = 0)
    (g : ∀ i ∈ indices.values, 0 ≤ i) :
    take_unchecked values indices = .ok ⟨values.data_type,
      indices.values.map (fun i => values.values.getD i.toNat default),
      some (indices.values.map (fun i => v.getD i.toNat false))⟩ := by
  rw [take_unchecked, dispatch_tf hv hi, take_values_validity, hsome]
  rw [show (some v).getD [] = v from rfl, valuesValidityGo_unchecked_ok g,
    okBind, okBind]
  rfl

theorem take_unchecked_ft_ok [Inhabited α] {values : PrimitiveArray α}
    {indices : PrimitiveArray Int}
    (hv : values.null_count = 0) (hi : 0 < indices.null_count)
    (g : ∀ oi ∈ indices.iter, ∀ i, oi = some i → 0 ≤ i) :
    take_unchecked values indices = .ok ⟨values.data_type,
      indices.iter.map (slotValue values.values), indices.validity⟩ := by
  rw [take_unchecked, dispatch_ft hv hi, take_indices_validity,
    indicesValidityGo_unchecked_ok g, okBind, okBind]
  rfl

theorem take_unchecked_tt_ok [Inhabited α] {values : PrimitiveArray α}
    {indices : PrimitiveArray Int} {v : List Bool}
    (hsome : values.validity = some v)
    (hv : 0 < values.null_count) (hi : 0 < indices.null_count)
    (g : ∀ oi ∈ indices.iter, ∀ i, oi = some i → 0 ≤ i) :
    take_unchecked values indices = .ok ⟨values.data_type,
      indices.iter.map (slotValue values.values),
      some (indices.iter.map (slotBit v))⟩ := by
  rw [take_unchecked, dispatch_tt hv hi, take_values_indices_validity, hsome]
  rw [show (some v).getD [] = v from rfl,
    valuesIndicesValidityGo_unchecked_ok g, okBind, okBind]
  rfl

theorem takeBool_eq (values : BooleanArray) (indices : PrimitiveArray Int) :
    takeBool values indices =
      match take (BooleanArray.asPrimitive values) indices with
      | .ok a => .ok (BooleanArray.from_data a.values a.validity)
      | .error e => .error e := by
  rw [takeBool, take]
  cases hx : dispatch (BooleanArray.asPrimitive values) indices getChecked
      getPairChecked with
  | ok r => rw [okBind, okBind]; rfl
  | error e => rw [errBind, errBind]

theorem takeBoolUnchecked_eq (values : BooleanArray)
    (indices : PrimitiveArray Int) :
    takeBoolUnchecked values indices =
      match take_unchecked (BooleanArray.asPrimitive values) indices with
      | .ok a => .ok (BooleanArray.from_data a.values a.validity)
      | .error e => .error e := by
  rw [takeBoolUnchecked, take_unchecked]
  cases hx : dispatch (BooleanArray.asPrimitive values) indices getUnchecked
      getPairUnchecked with
  | ok r => rw [okBind, okBind]; rfl
  | error e => rw [errBind, errBind]

theorem takeBool_ok_elim {values : BooleanArray} {indices : PrimitiveArray Int}
    {out : BooleanArray} (h : takeBool values indices = .ok out) :
    ∃ a, take (BooleanArray.asPrimitive values) indices = .ok a ∧
      out = ⟨a.values, a.validity⟩ := by
  rw [takeBool_eq] at h
  cases hx : take (BooleanArray.asPrimitive values) indices with
  | ok a =>
    rw [hx] at h
    exact ⟨a, rfl, (Except.ok.inj h).symm⟩
  | error e => rw [hx] at h; cases h

theorem takeBool_of_take_err {values : BooleanArray}
    {indices : PrimitiveArray Int} {e : ArrowError}
    (h : take (BooleanArray.asPrimitive values) indices = .error e) :
    takeBool values indices = .error e := by
  rw [takeBool_eq, h]

theorem takeBool_of_take_ok {values : BooleanArray}
    {indices : PrimitiveArray Int} {a : PrimitiveArray Bool}
    (h : take (BooleanArray.asPrimitive values) indices = .ok a) :
    takeBool values indices = .ok ⟨a.values, a.validity⟩ := by
  rw [takeBool_eq, h]
  rfl

theorem takeBoolUnchecked_of_ok {values : BooleanArray}
    {indices : PrimitiveArray Int} {a : PrimitiveArray Bool}
    (h : take_unchecked (BooleanArray.asPrimitive values) indices = .ok a) :
    takeBoolUnchecked values indices = .ok ⟨a.values, a.validity⟩ := by
  rw [takeBoolUnchecked_eq, h]
  rfl

end Take

namespace MutableFixedSizeBinaryArray

theorem replicate_set_last (n : Nat) :
    (List.replicate (n + 1) true).set n false =
      List.replicate n true ++ [false] := by
  induction n with
  | zero => rfl
  | succ m ih =>
    rw [List.replicate_succ, List.set_cons_succ, ih, List.replicate_succ,
      List.cons_append]

theorem all_isSome_map_replicate :
    ∀ {ps : List (Option (List Nat))}, ps.all Option.isSome = true →
      ps.map Option.isSome = List.replicate ps.length true := by
  intro ps
  induction ps with
  | nil => intro _; rfl
  | cons p rest ih =>
    intro h
    rw [List.all_cons, Bool.and_eq_true] at h
    rw [List.map_cons, List.length_cons, List.replicate_succ, h.1, ih h.2]

theorem flatten_length_chunks {s : Nat} :
    ∀ {l : List (List Nat)}, (∀ c ∈ l, c.length = s) →
      l.flatten.length = l.length * s := by
  intro l
  induction l with
  | nil => intro _; simp
  | cons c rest ih =>
    intro h
    rw [List.flatten_cons, List.length_append, List.length_cons,
      h c (List.mem_cons_self c rest),
      ih (fun d hd => h d (List.mem_cons_of_mem c hd)), Nat.succ_mul,
      Nat.add_comm]

theorem flatten_chunk {s : Nat} :
    ∀ (l : List (List Nat)) (k : Nat), (∀ c ∈ l, c.length = s) →
      k < l.length → (l.flatten.drop (k * s)).take s = l.getD k [] := by
  intro l
  induction l with
  | nil => intro k _ hk; cases hk
  | cons c rest ih =>
    intro k h hk
    cases k with
    | zero =>
      rw [Nat.zero_mul, List.drop_zero, List.flatten_cons, List.getD_cons_zero,
        ← h c (List.mem_cons_self c rest), List.take_left]
    | succ m =>
      rw [List.flatten_cons, List.getD_cons_succ, Nat.succ_mul, Nat.add_comm,
        ← h c (List.mem_cons_self c rest), List.drop_append,
        h c (List.mem_cons_self c rest)]
      exact ih m (fun d hd => h d (List.mem_cons_of_mem c hd))
        (Nat.lt_of_succ_lt_succ hk)

theorem slotBytes_length {size : Nat} {ps : List (Option (List Nat))}
    (hps : ∀ p ∈ ps, ∀ bytes, p = some bytes → bytes.length = size) :
    ∀ c ∈ ps.map (slotBytes size), c.length = size := by
  intro c hc
  obtain ⟨p, hp, rfl⟩ := List.mem_map.mp hc
  cases p with
  | some bytes => exact hps _ hp bytes rfl
  | none => exact List.length_replicate ..

theorem try_push_invState {size : Nat} (hsize : 0 < size)
    {ps : List (Option (List Nat))} {b : MutableFixedSizeBinaryArray}
    (hinv : InvState size ps b)
    (hps : ∀ p ∈ ps, ∀ bytes, p = some bytes → bytes.length = size)
    (p : Option (List Nat))
    (hplen : ∀ bytes, p = some bytes → bytes.length = size) :
    (b.try_push p).2 = .ok () ∧ InvState size (ps ++ [p]) (b.try_push p).1 := by
  obtain ⟨dt, s, vals, val⟩ := b
  obtain ⟨hbs, hbd, hbv, hbval⟩ := hinv
  have hs : size = s := hbs.symm
  subst hs
  have hd : dt = .FixedSizeBinary (size : Int) := hbd
  subst hd
  have hv : vals = (ps.map (slotBytes size)).flatten := hbv
  subst hv
  have hval2 : val = builtValidity ps := hbval
  subst hval2
  have happ : (ps.map (slotBytes size)).flatten ++ List.replicate size 0 =
      ((ps ++ [none]).map (slotBytes size)).flatten := by
    rw [List.map_append, List.flatten_append]
    simp [slotBytes]
  cases p with
  | some bytes =>
    have hblen : bytes.length = size := hplen bytes rfl
    have hcond : ¬ (size ≠ bytes.length) := by omega
    refine ⟨?_, ?_, ?_, ?_, ?_⟩
    · simp only [try_push]
      rw [if_neg hcond]
    · simp only [try_push]
      rw [if_neg hcond]
    · simp only [try_push]
      rw [if_neg hcond]
    · simp only [try_push]
      rw [if_neg hcond]
      show (ps.map (slotBytes size)).flatten ++ bytes =
        ((ps ++ [some bytes]).map (slotBytes size)).flatten
      rw [List.map_append, List.flatten_append]
      simp [slotBytes]
    · simp only [try_push]
      rw [if_neg hcond]
      by_cases hall : ps.all Option.isSome = true
      · have h1 : builtValidity ps = none := by
          rw [builtValidity, if_pos hall]
        have h2 : builtValidity (ps ++ [some bytes]) = none := by
          rw [builtValidity, if_pos (by simp [List.all_append, hall])]
        show (match builtValidity ps with
          | some v => some (v ++ [true])
          | none => none) = builtValidity (ps ++ [some bytes])
        rw [h1, h2]
      · have h1 : builtValidity ps = some (ps.map Option.isSome) := by
          rw [builtValidity, if_neg hall]
        have h2 : builtValidity (ps ++ [some bytes]) =
            some ((ps ++ [some bytes]).map Option.isSome) := by
          rw [builtValidity, if_neg (by simp [List.all_append, hall])]
        show (match builtValidity ps with
          | some v => some (v ++ [true])
          | none => none) = builtValidity (ps ++ [some bytes])
        rw [h1, h2, List.map_append]
        rfl
  | none =>
    by_cases hall : ps.all Option.isSome = true
    · have h1 : builtValidity ps = none := by
        rw [builtValidity, if_pos hall]
      have h2 : builtValidity (ps ++ [none]) =
          some (ps.map Option.isSome ++ [false]) := by
        rw [builtValidity, if_neg (by simp [List.all_append]),
          List.map_append]
        rfl
      have hflat : ((ps.map (slotBytes size)).flatten).length =
          ps.length * size := by
        rw [flatten_length_chunks (slotBytes_length hps), List.length_map]
      refine ⟨?_, ?_, ?_, ?_, ?_⟩
      · simp only [try_push, h1, init_validity]
      · simp only [try_push, h1, init_validity]
      · simp only [try_push, h1, init_validity]
      · simp only [try_push, h1, init_validity]
        exact happ
      · simp only [try_push, h1, init_validity]
        show some ((List.replicate (len _) true).set (len _ - 1) false) =
          builtValidity (ps ++ [none])
        simp only [len, List.length_append, List.length_replicate, hflat]
        rw [Nat.add_div_right _ hsize, Nat.mul_div_cancel _ hsize,
          Nat.add_sub_cancel, replicate_set_last,
          ← all_isSome_map_replicate hall, h2]
    · have h1 : builtValidity ps = some (ps.map Option.isSome) := by
        rw [builtValidity, if_neg hall]
      have h2 : builtValidity (ps ++ [none]) =
          some (ps.map Option.isSome ++ [false]) := by
        rw [builtValidity, if_neg (by simp [List.all_append]),
          List.map_append]
        rfl
      refine ⟨?_, ?_, ?_, ?_, ?_⟩
      · simp only [try_push, h1]
      · simp only [try_push, h1]
      · simp only [try_push, h1]
      · simp only [try_push, h1]
        exact happ
      · simp only [try_push, h1]
        show some (ps.map Option.isSome ++ [false]) =
          builtValidity (ps ++ [none])
        rw [h2]

theorem pushAll_invState {size : Nat} (hsize : 0 < size) :
    ∀ (rest ps : List (Option (List Nat))) (b : MutableFixedSizeBinaryArray),
      InvState size ps b →
      (∀ p ∈ ps, ∀ bytes, p = some bytes → bytes.length = size) →
      (∀ p ∈ rest, ∀ bytes, p = some bytes → bytes.length = size) →
      ∃ b', pushAll b rest = .ok b' ∧ InvState size (ps ++ rest) b' := by
  intro rest
  induction rest with
  | nil =>
    intro ps b hinv _ _
    exact ⟨b, rfl, by rw [List.append_nil]; exact hinv⟩
  | cons p rest' ih =>
    intro ps b hinv hps hrest
    obtain ⟨hpok, hinv1⟩ := try_push_invState hsize hinv hps p
      (hrest p (List.mem_cons_self p rest'))
    have hpush : b.try_push p = ((b.try_push p).1, .ok ()) := by
      rw [← hpok]
    have hps1 : ∀ q ∈ ps ++ [p], ∀ bytes, q = some bytes →
        bytes.length = size := by
      intro q hq bytes he
      rcases List.mem_append.mp hq with h | h
      · exact hps q h bytes he
      · rw [List.mem_singleton.mp h] at he
        exact hrest p (List.mem_cons_self p rest') bytes he
    obtain ⟨b', hall, hinv'⟩ := ih (ps ++ [p]) (b.try_push p).1 hinv1 hps1
      (fun q hq => hrest q (List.mem_cons_of_mem p hq))
    refine ⟨b', ?_, ?_⟩
    · rw [pushAll, hpush]
      exact hall
    · rwa [List.append_assoc, List.singleton_append] at hinv'

end MutableFixedSizeBinaryArray

/-!
The claims
-/

/-- C10: the take kernels (boolean and primitive, checked and unchecked)
choose the nullability strategy by `null_count() > 0`, not by the presence of
a validity bitmap: whenever both inputs have `null_count == 0` and the call
succeeds, the output's validity is `None` — even if the inputs carry all-true
validity bitmaps. -/
theorem C10_no_nulls_output_validity_none :
    (∀ (α : Type) [Inhabited α] (values : PrimitiveArray α)
      (indices : PrimitiveArray Int) (out : PrimitiveArray α),
      values.null_count = 0 → indices.null_count = 0 →
      Take.take values indices = .ok out → out.validity = none) ∧
    (∀ (α : Type) [Inhabited α] (values : PrimitiveArray α)
      (indices : PrimitiveArray Int) (out : PrimitiveArray α),
      values.null_count = 0 → indices.null_count = 0 →
      Take.take_unchecked values indices = .ok out → out.validity = none) ∧
    (∀ (values : BooleanArray) (indices : PrimitiveArray Int)
      (out : BooleanArray),
      values.null_count = 0 → indices.null_count = 0 →
      Take.takeBool values indices = .ok out → out.validity = none) ∧
    (∀ (values : BooleanArray) (indices : PrimitiveArray Int)
      (out : BooleanArray),
      values.null_count = 0 → indices.null_count = 0 →
      Take.takeBoolUnchecked values indices = .ok out →
        out.validity = none) := by
  have hprim : ∀ (α : Type) [Inhabited α] (values : PrimitiveArray α)
      (indices : PrimitiveArray Int) (out : PrimitiveArray α) (get gp),
      values.null_count = 0 → indices.null_count = 0 →
      (Take.dispatch values indices get gp >>=
        fun r => Except.ok (PrimitiveArray.from_data values.data_type r.1 r.2))
          = .ok out →
      out.validity = none := by
    intro α _ values indices out get gp hv hi htake
    rw [Take.dispatch_ff hv hi, Take.take_no_validity] at htake
    cases hgo : Take.noValidityGo values.values get indices.values with
    | ok buf =>
      rw [hgo, okBind, okBind] at htake
      rw [← Except.ok.inj htake]
      rfl
    | error e => rw [hgo, errBind, errBind] at htake; cases htake
  refine ⟨?_, ?_, ?_, ?_⟩
  · intro α inst values indices out hv hi htake
    exact hprim α values indices out _ _ hv hi htake
  · intro α inst values indices out hv hi htake
    exact hprim α values indices out _ _ hv hi htake
  · intro values indices out hv hi htake
    obtain ⟨a, ha, rfl⟩ := Take.takeBool_ok_elim htake
    exact hprim Bool (Take.BooleanArray.asPrimitive values) indices a _ _
      hv hi ha
  · intro values indices out hv hi htake
    rw [Take.takeBoolUnchecked_eq] at htake
    cases hx : Take.take_unchecked (Take.BooleanArray.asPrimitive values)
        indices with
    | ok a =>
      rw [hx] at htake
      rw [← Except.ok.inj htake]
      exact hprim Bool (Take.BooleanArray.asPrimitive values) indices a _ _
        hv hi hx
    | error e => rw [hx] at htake; cases htake

/-- C2: when every index is non-null and in `[0, len(values))`, `take`
succeeds; the output has the logical length of `indices`, its slot `k` holds
`values[indices[k]]`, and slot `k` is null exactly when `values[indices[k]]`
was null (in particular, never null unless the source slot was). Stated for
the primitive and the boolean kernel. -/
theorem C2_in_bounds_take_gathers :
    (∀ (α : Type) [Inhabited α] (values : PrimitiveArray α)
      (indices : PrimitiveArray Int),
      values.WF → indices.WF → indices.null_count = 0 →
      (∀ i ∈ indices.values, 0 ≤ i ∧ i.toNat < values.len) →
      ∃ out, Take.take values indices = .ok out ∧
        out.len = indices.len ∧
        ∀ k, k < indices.len →
          out.valueAt k = values.valueAt (indices.values.getD k 0).toNat ∧
          out.isNullAt k = values.isNullAt (indices.values.getD k 0).toNat) ∧
    (∀ (values : BooleanArray) (indices : PrimitiveArray Int),
      values.WF → indices.WF → indices.null_count = 0 →
      (∀ i ∈ indices.values, 0 ≤ i ∧ i.toNat < values.len) →
      ∃ out, Take.takeBool values indices = .ok out ∧
        out.len = indices.len ∧
        ∀ k, k < indices.len →
          out.valueAt k = values.valueAt (indices.values.getD k 0).toNat ∧
          out.isNullAt k = values.isNullAt (indices.values.getD k 0).toNat) := by
  have hmain : ∀ (α : Type) [Inhabited α] (values : PrimitiveArray α)
      (indices : PrimitiveArray Int),
      values.WF → indices.WF → indices.null_count = 0 →
      (∀ i ∈ indices.values, 0 ≤ i ∧ i.toNat < values.len) →
      ∃ out, Take.take values indices = .ok out ∧
        out.len = indices.len ∧
        ∀ k, k < indices.len →
          out.valueAt k = values.valueAt (indices.values.getD k 0).toNat ∧
          out.isNullAt k = values.isNullAt (indices.values.getD k 0).toNat := by
    intro α _ values indices hwfv _ hi g
    rcases Nat.eq_zero_or_pos values.null_count with hv | hv
    · refine ⟨_, Take.take_ff_ok hv hi g, by simp [PrimitiveArray.len], ?_⟩
      intro k hk
      constructor
      · exact getD_map_lt hk default 0
      · rw [PrimitiveArray.isNullAt_of_null_count_zero hv]
        rfl
    · obtain ⟨v, hsome⟩ := PrimitiveArray.validity_of_null_count_pos hv
      refine ⟨_, Take.take_tf_ok hwfv hsome hv hi g,
        by simp [PrimitiveArray.len], ?_⟩
      intro k hk
      refine ⟨getD_map_lt hk default 0, ?_⟩
      have hk' : k < indices.values.length := hk
      have hkn : (indices.values.getD k 0).toNat < v.length := by
        rw [hwfv v hsome]
        have hmem : indices.values.getD k 0 ∈ indices.values := by
          rw [List.getD_eq_getElem _ _ hk']
          exact List.getElem_mem hk'
        exact (g _ hmem).2
      simp only [PrimitiveArray.isNullAt, hsome]
      rw [getD_map_lt hk' true 0, List.getD_eq_getElem _ _ hkn,
        List.getD_eq_getElem _ _ hkn]
  refine ⟨hmain, ?_⟩
  intro values indices hwfv hwfi hi g
  obtain ⟨out, hok, hlen, hslots⟩ :=
    hmain Bool (Take.BooleanArray.asPrimitive values) indices hwfv hwfi hi g
  exact ⟨⟨out.values, out.validity⟩, Take.takeBool_of_take_ok hok, hlen,
    hslots⟩

/-- Witness for C2: the boolean kernel on `values = [true, false]`,
`indices = [1, 0]` gathers `[false, true]`. -/
theorem C2_witness :
    Take.takeBool ⟨[true, false], none⟩ ⟨.Int32, [1, 0], none⟩ =
      .ok ⟨[false, true], none⟩ ∧
    (⟨[false, true], none⟩ : BooleanArray).len = 2 ∧
    (⟨[false, true], none⟩ : BooleanArray).valueAt 0 =
      (⟨[true, false], none⟩ : BooleanArray).valueAt 1 := by
  obtain ⟨out, hok, hlen, hs⟩ := C2_in_bounds_take_gathers.2
    ⟨[true, false], none⟩ ⟨.Int32, [1, 0], none⟩
    (fun v hv => by cases hv) (fun v hv => by cases hv) rfl (by decide)
  have h2 : Take.takeBool ⟨[true, false], none⟩ ⟨.Int32, [1, 0], none⟩ =
      .ok ⟨[false, true], none⟩ := by rfl
  have hout : out = ⟨[false, true], none⟩ :=
    Except.ok.inj (hok.symm.trans h2)
  exact ⟨h2, hout ▸ hlen, hout ▸ (hs 0 (by decide)).1⟩

/-- C3: a checked take call (boolean or primitive) whose index array holds a
non-null index outside `[0, len(values))` — negative, hence rejected by the
index-to-offset conversion, or too large — returns
`Err(KeyOverflowError)` and produces no output array at all. -/
theorem C3_out_of_bounds_take_errors :
    (∀ (α : Type) [Inhabited α] (values : PrimitiveArray α)
      (indices : PrimitiveArray Int),
      values.WF → indices.WF →
      (∃ k, k < indices.len ∧ indices.isNullAt k = false ∧
        (indices.values.getD k 0 < 0 ∨
          values.len ≤ (indices.values.getD k 0).toNat)) →
      Take.take values indices = .error .KeyOverflowError) ∧
    (∀ (values : BooleanArray) (indices : PrimitiveArray Int),
      values.WF → indices.WF →
      (∃ k, k < indices.len ∧ indices.isNullAt k = false ∧
        (indices.values.getD k 0 < 0 ∨
          values.len ≤ (indices.values.getD k 0).toNat)) →
      Take.takeBool values indices = .error .KeyOverflowError) := by
  have hmain : ∀ (α : Type) [Inhabited α] (values : PrimitiveArray α)
      (indices : PrimitiveArray Int),
      values.WF → indices.WF →
      (∃ k, k < indices.len ∧ indices.isNullAt k = false ∧
        (indices.values.getD k 0 < 0 ∨
          values.len ≤ (indices.values.getD k 0).toNat)) →
      Take.take values indices = .error .KeyOverflowError := by
    intro α _ values indices hwfv hwfi ⟨k, hk, hnn, hbad⟩
    have hk' : k < indices.values.length := hk
    have hnogood : ¬ (0 ≤ indices.values.getD k 0 ∧
        (indices.values.getD k 0).toNat < values.values.length) := by
      rintro ⟨g1, g2⟩
      rcases hbad with h | h
      · omega
      · exact absurd g2 (Nat.not_lt.mpr h)
    rcases Nat.eq_zero_or_pos indices.null_count with hi | hi
    · have hmem : indices.values.getD k 0 ∈ indices.values := by
        rw [List.getD_eq_getElem _ _ hk']
        exact List.getElem_mem hk'
      have g : ¬ ∀ i ∈ indices.values,
          0 ≤ i ∧ i.toNat < values.values.length :=
        fun h => hnogood (h _ hmem)
      rcases Nat.eq_zero_or_pos values.null_count with hv | hv
      · exact Take.take_ff_err hv hi g
      · obtain ⟨v, hsome⟩ := PrimitiveArray.validity_of_null_count_pos hv
        exact Take.take_tf_err hwfv hsome hv hi g
    · have hiter : indices.iter.getD k none =
          some (indices.values.getD k 0) := by
        rw [PrimitiveArray.iter_getD hwfi hk', hnn]
        simp
      have hkiter : k < indices.iter.length := by
        rw [PrimitiveArray.iter_length hwfi]
        exact hk'
      have hmem : some (indices.values.getD k 0) ∈ indices.iter := by
        rw [← hiter, List.getD_eq_getElem _ _ hkiter]
        exact List.getElem_mem hkiter
      have g : ¬ ∀ oi ∈ indices.iter, ∀ i, oi = some i →
          0 ≤ i ∧ i.toNat < values.values.length :=
        fun h => hnogood (h _ hmem _ rfl)
      rcases Nat.eq_zero_or_pos values.null_count with hv | hv
      · exact Take.take_ft_err hv hi g
      · obtain ⟨v, hsome⟩ := PrimitiveArray.validity_of_null_count_pos hv
        exact Take.take_tt_err hwfv hsome hv hi g
  refine ⟨hmain, ?_⟩
  intro values indices hwfv hwfi hbad
  exact Take.takeBool_of_take_err
    (hmain Bool (Take.BooleanArray.asPrimitive values) indices hwfv hwfi hbad)

/-- Witness for C3: index 5 into a length-1 array errors. -/
theorem C3_witness :
    Take.take (⟨.Int32, [7], none⟩ : PrimitiveArray Int)
      ⟨.Int32, [5], none⟩ = .error .KeyOverflowError := by
  exact C3_out_of_bounds_take_errors.1 Int ⟨.Int32, [7], none⟩
    ⟨.Int32, [5], none⟩ (fun v hv => by cases hv) (fun v hv => by cases hv)
    ⟨0, by decide, rfl, Or.inr (by decide)⟩

/-- C4: whenever every non-null index is in `[0, len(values))`, the checked
and the unchecked kernels (primitive and boolean) return identical output
arrays — same values buffer and same validity. -/
theorem C4_take_eq_take_unchecked :
    (∀ (α : Type) [Inhabited α] (values : PrimitiveArray α)
      (indices : PrimitiveArray Int),
      values.WF → indices.WF →
      (∀ k, k < indices.len → indices.isNullAt k = false →
        0 ≤ indices.values.getD k 0 ∧
          (indices.values.getD k 0).toNat < values.len) →
      Take.take values indices = Take.take_unchecked values indices) ∧
    (∀ (values : BooleanArray) (indices : PrimitiveArray Int),
      values.WF → indices.WF →
      (∀ k, k < indices.len → indices.isNullAt k = false →
        0 ≤ indices.values.getD k 0 ∧
          (indices.values.getD k 0).toNat < values.len) →
      Take.takeBool values indices = Take.takeBoolUnchecked values indices)
    := by
  have hmain : ∀ (α : Type) [Inhabited α] (values : PrimitiveArray α)
      (indices : PrimitiveArray Int),
      values.WF → indices.WF →
      (∀ k, k < indices.len → indices.isNullAt k = false →
        0 ≤ indices.values.getD k 0 ∧
          (indices.values.getD k 0).toNat < values.len) →
      Take.take values indices = Take.take_unchecked values indices := by
    intro α _ values indices hwfv hwfi h
    have giter : ∀ oi ∈ indices.iter, ∀ i, oi = some i →
        0 ≤ i ∧ i.toNat < values.values.length := by
      intro oi hm i he
      obtain ⟨k, hkit, hoi⟩ := List.getElem_of_mem hm
      have hk' : k < indices.values.length := by
        rw [← PrimitiveArray.iter_length hwfi]
        exact hkit
      have hgd : indices.iter.getD k none = oi := by
        rw [List.getD_eq_getElem _ _ hkit, hoi]
      rw [PrimitiveArray.iter_getD hwfi hk'] at hgd
      by_cases hn : indices.isNullAt k
      · rw [if_pos hn] at hgd
        rw [he] at hgd
        cases hgd
      · rw [if_neg hn] at hgd
        have := h k hk' (Bool.not_eq_true _ ▸ eq_false_of_ne_true hn)
        rw [he] at hgd
        rw [← Option.some_inj.mp hgd]
        exact this
    rcases Nat.eq_zero_or_pos indices.null_count with hi | hi
    · have gvals : ∀ i ∈ indices.values,
          0 ≤ i ∧ i.toNat < values.values.length := by
        intro i hm
        obtain ⟨k, hk, hi'⟩ := List.getElem_of_mem hm
        have hgd : indices.values.getD k 0 = i := by
          rw [List.getD_eq_getElem _ _ hk, hi']
        exact hgd ▸ h k hk (PrimitiveArray.isNullAt_of_null_count_zero hi k)
      rcases Nat.eq_zero_or_pos values.null_count with hv | hv
      · rw [Take.take_ff_ok hv hi gvals, Take.take_unchecked_ff_ok hv hi
          (fun i hm => (gvals i hm).1)]
      · obtain ⟨v, hsome⟩ := PrimitiveArray.validity_of_null_count_pos hv
        rw [Take.take_tf_ok hwfv hsome hv hi gvals,
          Take.take_unchecked_tf_ok hsome hv hi (fun i hm => (gvals i hm).1)]
    · rcases Nat.eq_zero_or_pos values.null_count with hv | hv
      · rw [Take.take_ft_ok hv hi giter, Take.take_unchecked_ft_ok hv hi
          (fun oi hm i he => (giter oi hm i he).1)]
      · obtain ⟨v, hsome⟩ := PrimitiveArray.validity_of_null_count_pos hv
        rw [Take.take_tt_ok hwfv hsome hv hi giter,
          Take.take_unchecked_tt_ok hsome hv hi
            (fun oi hm i he => (giter oi hm i he).1)]
  refine ⟨hmain, ?_⟩
  intro values indices hwfv hwfi h
  rw [Take.takeBool_eq, Take.takeBoolUnchecked_eq,
    hmain Bool (Take.BooleanArray.asPrimitive values) indices hwfv hwfi h]

/-- Witness for C4: a doubly-nullable call on which checked and unchecked
agree. -/
theorem C4_witness :
    Take.takeBool ⟨[false, false], some [false, true]⟩
        ⟨.Int32, [1, 0, 0], some [true, false, true]⟩ =
      Take.takeBoolUnchecked ⟨[false, false], some [false, true]⟩
        ⟨.Int32, [1, 0, 0], some [true, false, true]⟩ := by
  refine C4_take_eq_take_unchecked.2 ⟨[false, false], some [false, true]⟩
    ⟨.Int32, [1, 0, 0], some [true, false, true]⟩
    (fun v hv => by cases hv; rfl) (fun v hv => by cases hv; rfl) ?_
  intro k hk hnn
  have hk3 : k < 3 := hk
  interval_cases k
  · exact ⟨by decide, by decide⟩
  · cases hnn
  · exact ⟨by decide, by decide⟩

/-- C1: for every successful boolean or primitive `take` call, the
nullability of output slot `k` follows the four-way table exactly, where a
side is "nullable" precisely when its `null_count() > 0`:
no side nullable — never null; only values nullable — null iff
`!values.validity[indices[k]]`; only indices nullable — null iff
`indices[k]` is none; both — null iff `indices[k]` is none or
`!values.validity[indices[k]]`. -/
theorem C1_null_propagation_table :
    (∀ (α : Type) [Inhabited α] (values : PrimitiveArray α)
      (indices : PrimitiveArray Int) (out : PrimitiveArray α),
      values.WF → indices.WF → Take.take values indices = .ok out →
      ∀ k, k < indices.len →
      (values.null_count = 0 → indices.null_count = 0 →
        out.isNullAt k = false) ∧
      (0 < values.null_count → indices.null_count = 0 →
        out.isNullAt k = values.isNullAt (indices.values.getD k 0).toNat) ∧
      (values.null_count = 0 → 0 < indices.null_count →
        out.isNullAt k = indices.isNullAt k) ∧
      (0 < values.null_count → 0 < indices.null_count →
        (indices.isNullAt k = true → out.isNullAt k = true) ∧
        (indices.isNullAt k = false →
          out.isNullAt k =
            values.isNullAt (indices.values.getD k 0).toNat))) ∧
    (∀ (values : BooleanArray) (indices : PrimitiveArray Int)
      (out : BooleanArray),
      values.WF → indices.WF → Take.takeBool values indices = .ok out →
      ∀ k, k < indices.len →
      (values.null_count = 0 → indices.null_count = 0 →
        out.isNullAt k = false) ∧
      (0 < values.null_count → indices.null_count = 0 →
        out.isNullAt k = values.isNullAt (indices.values.getD k 0).toNat) ∧
      (values.null_count = 0 → 0 < indices.null_count →
        out.isNullAt k = indices.isNullAt k) ∧
      (0 < values.null_count → 0 < indices.null_count →
        (indices.isNullAt k = true → out.isNullAt k = true) ∧
        (indices.isNullAt k = false →
          out.isNullAt k =
            values.isNullAt (indices.values.getD k 0).toNat))) := by
  have hmain : ∀ (α : Type) [Inhabited α] (values : PrimitiveArray α)
      (indices : PrimitiveArray Int) (out : PrimitiveArray α),
      values.WF → indices.WF → Take.take values indices = .ok out →
      ∀ k, k < indices.len →
      (values.null_count = 0 → indices.null_count = 0 →
        out.isNullAt k = false) ∧
      (0 < values.null_count → indices.null_count = 0 →
        out.isNullAt k = values.isNullAt (indices.values.getD k 0).toNat) ∧
      (values.null_count = 0 → 0 < indices.null_count →
        out.isNullAt k = indices.isNullAt k) ∧
      (0 < values.null_count → 0 < indices.null_count →
        (indices.isNullAt k = true → out.isNullAt k = true) ∧
        (indices.isNullAt k = false →
          out.isNullAt k =
            values.isNullAt (indices.values.getD k 0).toNat)) := by
    intro α _ values indices out hwfv hwfi htake k hk
    have hk' : k < indices.values.length := hk
    refine ⟨?_, ?_, ?_, ?_⟩
    · -- neither side nullable: output validity is None
      intro hv hi
      rw [Take.take, Take.dispatch_ff hv hi, Take.take_no_validity] at htake
      cases hgo : Take.noValidityGo values.values Take.getChecked
          indices.values with
      | ok buf =>
        rw [hgo, okBind, okBind] at htake
        rw [← Except.ok.inj htake]
        rfl
      | error e => rw [hgo, errBind, errBind] at htake; cases htake
    · -- only values nullable
      intro hv hi
      obtain ⟨v, hsome⟩ := PrimitiveArray.validity_of_null_count_pos hv
      by_cases g : ∀ i ∈ indices.values, 0 ≤ i ∧
          i.toNat < values.values.length
      · have hout := Except.ok.inj
          ((Take.take_tf_ok hwfv hsome hv hi g).symm.trans htake)
        have hkn : (indices.values.getD k 0).toNat < v.length := by
          rw [hwfv v hsome]
          have hmem : indices.values.getD k 0 ∈ indices.values := by
            rw [List.getD_eq_getElem _ _ hk']
            exact List.getElem_mem hk'
          exact (g _ hmem).2
        rw [← hout]
        simp only [PrimitiveArray.isNullAt, hsome]
        rw [getD_map_lt hk' true 0, List.getD_eq_getElem _ _ hkn,
          List.getD_eq_getElem _ _ hkn]
      · rw [Take.take_tf_err hwfv hsome hv hi g] at htake
        cases htake
    · -- only indices nullable: output validity is the indices' validity
      intro hv hi
      by_cases g : ∀ oi ∈ indices.iter, ∀ i, oi = some i →
          0 ≤ i ∧ i.toNat < values.values.length
      · have hout := Except.ok.inj
          ((Take.take_ft_ok hv hi g).symm.trans htake)
        rw [← hout]
        simp only [PrimitiveArray.isNullAt]
      · rw [Take.take_ft_err hv hi g] at htake
        cases htake
    · -- both nullable
      intro hv hi
      obtain ⟨v, hsome⟩ := PrimitiveArray.validity_of_null_count_pos hv
      by_cases g : ∀ oi ∈ indices.iter, ∀ i, oi = some i →
          0 ≤ i ∧ i.toNat < values.values.length
      · have hout := Except.ok.inj
          ((Take.take_tt_ok hwfv hsome hv hi g).symm.trans htake)
        have hkit : k < indices.iter.length := by
          rw [PrimitiveArray.iter_length hwfi]
          exact hk'
        constructor
        · intro hnull
          rw [← hout]
          simp only [PrimitiveArray.isNullAt]
          rw [getD_map_lt hkit true none, PrimitiveArray.iter_getD hwfi hk',
            if_pos hnull]
          rfl
        · intro hnn
          have hiter : indices.iter.getD k none =
              some (indices.values.getD k default) := by
            rw [PrimitiveArray.iter_getD hwfi hk', hnn]
            simp
          have hmem : some (indices.values.getD k default) ∈ indices.iter := by
            rw [← hiter, List.getD_eq_getElem _ _ hkit]
            exact List.getElem_mem hkit
          have hkn : (indices.values.getD k 0).toNat < v.length := by
            rw [hwfv v hsome]
            have := (g _ hmem _ rfl).2
            rwa [List.getD_eq_getElem _ _ hk',
              ← List.getD_eq_getElem indices.values 0 hk'] at this
          rw [← hout]
          simp only [PrimitiveArray.isNullAt, hsome]
          rw [getD_map_lt hkit true none, hiter, Take.slotBit,
            List.getD_eq_getElem _ _ hk',
            ← List.getD_eq_getElem indices.values 0 hk',
            List.getD_eq_getElem _ _ hkn, List.getD_eq_getElem _ _ hkn]
      · rw [Take.take_tt_err hwfv hsome hv hi g] at htake
        cases htake
  refine ⟨hmain, ?_⟩
  intro values indices out hwfv hwfi htake k hk
  obtain ⟨a, ha, rfl⟩ := Take.takeBool_ok_elim htake
  exact hmain Bool (Take.BooleanArray.asPrimitive values) indices a
    hwfv hwfi ha k hk

/-- Witness for C1: the doubly-nullable concrete case from the kernel's own
test suite, checked against the last row of the table at slots 1 and 2. -/
theorem C1_witness :
    Take.takeBool ⟨[false, false], some [false, true]⟩
        ⟨.Int32, [1, 0, 0], some [true, false, true]⟩ =
      .ok ⟨[false, false, false], some [true, false, false]⟩ ∧
    (⟨[false, false, false], some [true, false, false]⟩ :
        BooleanArray).isNullAt 1 = true ∧
    (⟨[false, false, false], some [true, false, false]⟩ :
        BooleanArray).isNullAt 2 =
      (⟨[false, false], some [false, true]⟩ : BooleanArray).isNullAt 0 := by
  have h2 : Take.takeBool ⟨[false, false], some [false, true]⟩
      ⟨.Int32, [1, 0, 0], some [true, false, true]⟩ =
      .ok ⟨[false, false, false], some [true, false, false]⟩ := by rfl
  have t1 := C1_null_propagation_table.2 ⟨[false, false], some [false, true]⟩
    ⟨.Int32, [1, 0, 0], some [true, false, true]⟩
    ⟨[false, false, false], some [true, false, false]⟩
    (fun v hv => by cases hv; rfl) (fun v hv => by cases hv; rfl) h2
  exact ⟨h2, ((t1 1 (by decide)).2.2.2 (by decide) (by decide)).1 rfl,
    ((t1 2 (by decide)).2.2.2 (by decide) (by decide)).2 rfl⟩

/-- C5: `try_push(Some(bytes))` with `bytes.len() != size` fails with
`InvalidArgumentError` and leaves the builder completely unchanged — the
state returned alongside the error is the original builder, so its length,
values buffer and validity mask are untouched. -/
theorem C5_wrong_length_push_rejected
    (a : MutableFixedSizeBinaryArray) (bytes : List Nat)
    (h : bytes.length ≠ a.size) :
    a.try_push (some bytes) =
      (a, .error (.InvalidArgumentError
        "FixedSizeBinaryArray requires every item to be of its length")) := by
  simp only [MutableFixedSizeBinaryArray.try_push]
  rw [if_pos (Ne.symm h)]

/-- Witness for C5: pushing one byte into a size-2 builder is rejected and
the builder is unchanged. -/
theorem C5_witness :
    [1].length ≠ (MutableFixedSizeBinaryArray.new 2).size ∧
    (MutableFixedSizeBinaryArray.new 2).try_push (some [1]) =
      (MutableFixedSizeBinaryArray.new 2, .error (.InvalidArgumentError
        "FixedSizeBinaryArray requires every item to be of its length")) :=
  ⟨by decide, C5_wrong_length_push_rejected
    (MutableFixedSizeBinaryArray.new 2) [1] (by decide)⟩

/-- C6: `try_push(None)` appends `size` zero bytes; if no validity exists it
materializes one marking every previously appended element valid and the
last element null; if one exists it appends a single `false` bit; and a
`Some` push on a builder without validity leaves validity absent — the mask
only comes into existence at the first null. -/
theorem C6_push_none_materializes_validity
    (a : MutableFixedSizeBinaryArray) (hwf : a.WF) :
    ((a.try_push none).2 = .ok () ∧
      (a.try_push none).1.values = a.values ++ List.replicate a.size 0) ∧
    (a.validity = none →
      (a.try_push none).1.validity =
        some (List.replicate a.len true ++ [false])) ∧
    (∀ v, a.validity = some v →
      (a.try_push none).1.validity = some (v ++ [false])) ∧
    (∀ bytes, a.validity = none → bytes.length = a.size →
      (a.try_push (some bytes)).1.validity = none) := by
  obtain ⟨dt, s, vals, val⟩ := a
  obtain ⟨hsize, -, -⟩ := hwf
  refine ⟨?_, ?_, ?_, ?_⟩
  · cases val <;> exact ⟨rfl, rfl⟩
  · intro hval
    have hv : val = none := hval
    subst hv
    simp only [MutableFixedSizeBinaryArray.try_push,
      MutableFixedSizeBinaryArray.init_validity,
      MutableFixedSizeBinaryArray.len, List.length_append,
      List.length_replicate]
    rw [Nat.add_div_right vals.length hsize, Nat.add_sub_cancel,
      MutableFixedSizeBinaryArray.replicate_set_last]
  · intro v hval
    have hv : val = some v := hval
    subst hv
    rfl
  · intro bytes hval hblen
    have hv : val = none := hval
    subst hv
    have hs : s = bytes.length := hblen.symm
    simp [MutableFixedSizeBinaryArray.try_push, hs]

/-- Witness for C6: pushing `None` onto a one-element, mask-less size-1
builder appends a zero byte and materializes the mask `[true, false]`. -/
theorem C6_witness :
    (((MutableFixedSizeBinaryArray.from_data 1 [7] none).try_push
        none).1.values = [7, 0] ∧
      ((MutableFixedSizeBinaryArray.from_data 1 [7] none).try_push
        none).1.validity = some [true, false]) := by
  have h := C6_push_none_materializes_validity
    (MutableFixedSizeBinaryArray.from_data 1 [7] none)
    ⟨by decide, by decide, fun v hv => by cases hv⟩
  exact ⟨h.1.2, h.2.1 rfl⟩

/-- C7: builder round-trip. For any sequence of `Some(bytes)`/`None` pushes
with consistent `size` on a fresh builder, all pushes succeed, and freezing
then reading slot `i` with `value(i)` returns the pushed bytes for `Some`
slots and `size` zero bytes for `None` slots, with the validity pattern of
the pushed sequence reproduced exactly. -/
theorem C7_builder_round_trip (size : Nat)
    (pushes : List (Option (List Nat))) (hsize : 0 < size)
    (hp : ∀ p ∈ pushes, ∀ bytes, p = some bytes → bytes.length = size) :
    ∃ b, MutableFixedSizeBinaryArray.pushAll
        (MutableFixedSizeBinaryArray.new size) pushes = .ok b ∧
      b.freeze.len = pushes.length ∧
      ∀ k, k < pushes.length →
        b.freeze.value k =
          MutableFixedSizeBinaryArray.slotBytes size (pushes.getD k none) ∧
        b.freeze.isNullAt k = !(pushes.getD k none).isSome := by
  obtain ⟨b, hall, hinv⟩ := MutableFixedSizeBinaryArray.pushAll_invState hsize
    pushes [] (MutableFixedSizeBinaryArray.new size) ⟨rfl, rfl, rfl, rfl⟩
    (fun q hq => by cases hq) hp
  rw [List.nil_append] at hinv
  refine ⟨b, hall, ?_⟩
  obtain ⟨dt, s, vals, val⟩ := b
  obtain ⟨hbs, hbd, hbv, hbval⟩ := hinv
  have hs : size = s := hbs.symm
  subst hs
  have hd : dt = .FixedSizeBinary (size : Int) := hbd
  subst hd
  have hv : vals =
      (pushes.map (MutableFixedSizeBinaryArray.slotBytes size)).flatten := hbv
  subst hv
  have hval2 : val = MutableFixedSizeBinaryArray.builtValidity pushes := hbval
  subst hval2
  have hchunks := MutableFixedSizeBinaryArray.slotBytes_length hp
  have hflat :
      ((pushes.map
        (MutableFixedSizeBinaryArray.slotBytes size)).flatten).length =
      pushes.length * size := by
    rw [MutableFixedSizeBinaryArray.flatten_length_chunks hchunks,
      List.length_map]
  constructor
  · show ((pushes.map
      (MutableFixedSizeBinaryArray.slotBytes size)).flatten).length /
        size = pushes.length
    rw [hflat, Nat.mul_div_cancel _ hsize]
  · intro k hk
    have hkm : k <
        (pushes.map (MutableFixedSizeBinaryArray.slotBytes size)).length := by
      rw [List.length_map]
      exact hk
    constructor
    · show ((((pushes.map
        (MutableFixedSizeBinaryArray.slotBytes size)).flatten).drop
          (k * size)).take size) = _
      rw [MutableFixedSizeBinaryArray.flatten_chunk _ k hchunks hkm,
        getD_map_lt hk [] none]
    · by_cases hall2 : pushes.all Option.isSome = true
      · have h1 : MutableFixedSizeBinaryArray.builtValidity pushes = none := by
          rw [MutableFixedSizeBinaryArray.builtValidity, if_pos hall2]
        have h2 : (pushes.getD k none).isSome = true := by
          rw [List.getD_eq_getElem _ _ hk]
          exact List.all_eq_true.mp hall2 _ (List.getElem_mem hk)
        show (FixedSizeBinaryArray.isNullAt _ k) = _
        simp only [FixedSizeBinaryArray.isNullAt,
          MutableFixedSizeBinaryArray.freeze,
          FixedSizeBinaryArray.from_data, h1, h2]
        rfl
      · have h1 : MutableFixedSizeBinaryArray.builtValidity pushes =
            some (pushes.map Option.isSome) := by
          rw [MutableFixedSizeBinaryArray.builtValidity, if_neg hall2]
        show (FixedSizeBinaryArray.isNullAt _ k) = _
        simp only [FixedSizeBinaryArray.isNullAt,
          MutableFixedSizeBinaryArray.freeze,
          FixedSizeBinaryArray.from_data, h1]
        rw [getD_map_lt hk true none]

/-- Witness for C7: pushing `[5]` then `None` at size 1 freezes to an array
with slots `[5]` (valid) and `[0]` (null). -/
theorem C7_witness :
    MutableFixedSizeBinaryArray.pushAll (MutableFixedSizeBinaryArray.new 1)
        [some [5], none] =
      .ok ⟨.FixedSizeBinary (1 : Int), 1, [5, 0], some [true, false]⟩ ∧
    (MutableFixedSizeBinaryArray.freeze
      ⟨.FixedSizeBinary (1 : Int), 1, [5, 0], some [true, false]⟩).value 0 =
        [5] ∧
    (MutableFixedSizeBinaryArray.freeze
      ⟨.FixedSizeBinary (1 : Int), 1, [5, 0], some [true, false]⟩).value 1 =
        [0] ∧
    (MutableFixedSizeBinaryArray.freeze
      ⟨.FixedSizeBinary (1 : Int), 1, [5, 0], some [true, false]⟩).isNullAt 0 =
        false ∧
    (MutableFixedSizeBinaryArray.freeze
      ⟨.FixedSizeBinary (1 : Int), 1, [5, 0], some [true, false]⟩).isNullAt 1 =
        true := by
  obtain ⟨b, hall, hlen, hs⟩ := C7_builder_round_trip 1 [some [5], none]
    (by decide) (by
      intro p hp bytes he
      rcases List.mem_cons.mp hp with h | h
      · rw [h] at he
        cases he
        rfl
      · rw [List.mem_singleton.mp h] at he
        cases he)
  have h2 : MutableFixedSizeBinaryArray.pushAll
      (MutableFixedSizeBinaryArray.new 1) [some [5], none] =
      .ok ⟨.FixedSizeBinary (1 : Int), 1, [5, 0], some [true, false]⟩ := by
    rfl
  have hb : b = ⟨.FixedSizeBinary (1 : Int), 1, [5, 0], some [true, false]⟩ :=
    Except.ok.inj (hall.symm.trans h2)
  subst hb
  exact ⟨h2, (hs 0 (by decide)).1, (hs 1 (by decide)).1,
    (hs 0 (by decide)).2, (hs 1 (by decide)).2⟩

/-- C8: `from_incomplete_chunk([a,b], pad=a)` loads `a` into lane 0, `b`
into lane 1 and replicates `a` into lanes 2..8; `eq` against a lane vector of
all `a` sets bit 0, sets every bit 2..8, and sets bit 1 iff `b = a`. -/
theorem C8_simd8_incomplete_chunk_eq (α : Type) [Inhabited α]
    [DecidableEq α] (a b : α) :
    (Simd8.from_incomplete_chunk [a, b] a 0 = a ∧
     Simd8.from_incomplete_chunk [a, b] a 1 = b ∧
     ∀ i : Fin 8, 2 ≤ (i : Nat) →
       Simd8.from_incomplete_chunk [a, b] a i = a) ∧
    (Nat.testBit (Simd8.eq (Simd8.from_incomplete_chunk [a, b] a)
        (Simd8.from_chunk (List.replicate 8 a))) 0 = true ∧
     (∀ i : Fin 8, 2 ≤ (i : Nat) →
       Nat.testBit (Simd8.eq (Simd8.from_incomplete_chunk [a, b] a)
         (Simd8.from_chunk (List.replicate 8 a))) (i : Nat) = true) ∧
     Nat.testBit (Simd8.eq (Simd8.from_incomplete_chunk [a, b] a)
       (Simd8.from_chunk (List.replicate 8 a))) 1 = decide (b = a)) := by
  have hlane : ∀ i : Fin 8,
      Simd8.from_incomplete_chunk [a, b] a i = [a, b].getD i.val a := by
    intro i
    have h8 : i.val < (List.range 8).length := by
      rw [List.length_range]
      exact i.isLt
    show ((List.range 8).map (fun j => [a, b].getD j a)).getD i.val default = _
    rw [getD_map_lt h8 default 0, List.getD_eq_getElem _ _ h8,
      List.getElem_range]
  have hallA : ∀ i : Fin 8,
      Simd8.from_chunk (List.replicate 8 a) i = a := by
    intro i
    have h8 : i.val < (List.replicate 8 a).length := by
      rw [List.length_replicate]
      exact i.isLt
    show (List.replicate 8 a).getD i.val default = a
    rw [List.getD_eq_getElem _ _ h8, List.getElem_replicate]
  have hmask : Simd8.eq (Simd8.from_incomplete_chunk [a, b] a)
      (Simd8.from_chunk (List.replicate 8 a)) =
      if b = a then 255 else 253 := by
    simp only [Simd8.eq, Simd8.bitmask, Fin.sum_univ_eight, hlane, hallA,
      (show ((0 : Fin 8) : Nat) = 0 from rfl),
      (show ((1 : Fin 8) : Nat) = 1 from rfl),
      (show ((2 : Fin 8) : Nat) = 2 from rfl),
      (show ((3 : Fin 8) : Nat) = 3 from rfl),
      (show ((4 : Fin 8) : Nat) = 4 from rfl),
      (show ((5 : Fin 8) : Nat) = 5 from rfl),
      (show ((6 : Fin 8) : Nat) = 6 from rfl),
      (show ((7 : Fin 8) : Nat) = 7 from rfl)]
    by_cases hba : b = a
    · simp [hba]
    · simp [hba]
  refine ⟨⟨(hlane 0).trans rfl, (hlane 1).trans rfl, ?_⟩, ?_, ?_, ?_⟩
  · intro i hi
    rw [hlane i]
    exact List.getD_eq_default _ _ hi
  · rw [hmask]
    by_cases hba : b = a
    · rw [if_pos hba]
      decide
    · rw [if_neg hba]
      decide
  · intro i hi
    rw [hmask]
    by_cases hba : b = a
    · rw [if_pos hba]
      revert hi
      revert i
      decide
    · rw [if_neg hba]
      revert hi
      revert i
      decide
  · rw [hmask]
    by_cases hba : b = a
    · rw [if_pos hba, decide_eq_true hba]
      decide
    · rw [if_neg hba, decide_eq_false hba]
      decide

/-- Witness for C8: at `α = Nat`, `a = 0`, `b = 1`, lane 1 holds `1` and bit
1 of the mask is clear, while bit 0 and bit 7 are set. -/
theorem C8_witness :
    Simd8.from_incomplete_chunk [0, 1] 0 1 = 1 ∧
    Nat.testBit (Simd8.eq (Simd8.from_incomplete_chunk [(0 : Nat), 1] 0)
      (Simd8.from_chunk (List.replicate 8 0))) 1 = decide ((1 : Nat) = 0) ∧
    Nat.testBit (Simd8.eq (Simd8.from_incomplete_chunk [(0 : Nat), 1] 0)
      (Simd8.from_chunk (List.replicate 8 0))) 0 = true ∧
    Nat.testBit (Simd8.eq (Simd8.from_incomplete_chunk [(0 : Nat), 1] 0)
      (Simd8.from_chunk (List.replicate 8 0))) 7 = true := by
  have h := C8_simd8_incomplete_chunk_eq Nat 0 1
  exact ⟨h.1.2.1, h.2.2.2, h.2.1, h.2.2.1 7 (by decide)⟩

/-- C9's failing run: `push_null` as implemented only extends the values
buffer, so on a builder whose validity mask is present (here after one
`try_push(None)` at size 1) the logical length advances to 2 while the mask
keeps a single bit — the length invariant asserted by `from_data` and stated
by the spec is broken. -/
theorem C9_push_null_validity_desync :
    (((MutableFixedSizeBinaryArray.new 1).try_push
        none).1.push_null).validity = some [false] ∧
    (((MutableFixedSizeBinaryArray.new 1).try_push
        none).1.push_null).len = 2 := by
  decide

/-- Witness for C10: a concrete no-null call whose output has no validity. -/
theorem C10_witness :
    Take.take (⟨.Int32, [10, 20], none⟩ : PrimitiveArray Int)
        ⟨.Int32, [1, 0], none⟩ = .ok ⟨.Int32, [20, 10], none⟩ ∧
      (⟨.Int32, [20, 10], none⟩ : PrimitiveArray Int).validity = none := by
  refine ⟨by rfl, ?_⟩
  exact C10_no_nulls_output_validity_none.1 Int ⟨.Int32, [10, 20], none⟩
    ⟨.Int32, [1, 0], none⟩ ⟨.Int32, [20, 10], none⟩ rfl rfl (by rfl)

end Arrow2
